import Mathlib

/-!
Verification of the document-analysis core of the niri-config KDL language
service (`src/server/src/languageModes.ts`, `src/server/src/server.ts`).

The TypeScript source is shallowly embedded: document text is a `List Char`,
LSP positions are `(line, character)` pairs of naturals, and each scanning
function of the source is translated into an executable Lean function that
mirrors the JavaScript regular-expression semantics it relies on
(left-to-right scanning, greedy/lazy repetition, `lastIndex` advancement).
-/

namespace NiriKdl

/-- JS word character class `\w` = `[A-Za-z0-9_]` (ASCII). -/
def isWordChar (c : Char) : Bool :=
  (('A' ≤ c && c ≤ 'Z') || ('a' ≤ c && c ≤ 'z') || ('0' ≤ c && c ≤ '9') || c = '_')

/-- JS whitespace class `\s`, restricted to the ASCII whitespace characters
that can occur in the documents this service processes. -/
def isSpaceChar (c : Char) : Bool :=
  (c = ' ' || c = '\t' || c = '\n' || c = '\r' || c = '\x0b' || c = '\x0c')

/-- Hexadecimal digit, as used by the `\u{4-hex}` / `\U{8-hex}` escapes. -/
def isHexDigit (c : Char) : Bool :=
  (('0' ≤ c && c ≤ '9') || ('a' ≤ c && c ≤ 'f') || ('A' ≤ c && c ≤ 'F'))

/-- An LSP position: zero-based line and character. -/
structure Pos where
  line : Nat
  character : Nat
  deriving DecidableEq, Repr

/-- An LSP range: start and end position. -/
structure DRange where
  startPos : Pos
  endPos : Pos
  deriving DecidableEq, Repr

/-- Diagnostic severity (the source uses only Error and Warning). -/
inductive Severity where
  | error
  | warning
  deriving DecidableEq, Repr

/-- The diagnostic messages produced by `doValidation`, represented
structurally.  `unclosedString` renders as "Unclosed string literal",
`invalidEscape bad` as the invalid-escape message quoting `bad`, and
`unmatchedBraces o c` as the message stating both brace counts. -/
inductive DiagMsg where
  | unclosedString
  | invalidEscape (bad : List Char)
  | unmatchedBraces (openCount closeCount : Nat)
  deriving DecidableEq, Repr

/-- A diagnostic: severity, range, structured message. -/
structure Diagnostic where
  severity : Severity
  range : DRange
  message : DiagMsg
  deriving DecidableEq, Repr

/-- `text.split(/\r?\n/)` : split on `\n`, also consuming a `\r` that
immediately precedes it.  A lone `\r` is not a separator. -/
def splitLinesAux : List Char → List Char → List (List Char)
  | [], cur => [cur.reverse]
  | c :: rest, cur =>
    if c = '\n' then cur.reverse :: splitLinesAux rest []
    else if c = '\r' then
      match rest with
      | [] => [(c :: cur).reverse]
      | c2 :: rest2 =>
        if c2 = '\n' then cur.reverse :: splitLinesAux rest2 []
        else splitLinesAux (c2 :: rest2) (c :: cur)
    else splitLinesAux rest (c :: cur)

/-- All lines of the document, in order (never empty). -/
def splitLines (text : List Char) : List (List Char) :=
  splitLinesAux text []

/-- Offsets at which lines start, ascending, starting with 0.  Line breaks are
`\r\n`, lone `\r`, or `\n` (as in `vscode-languageserver-textdocument`). -/
def lineStartsAux : List Char → Nat → List Nat
  | [], _ => []
  | c :: rest, i =>
    if c = '\n' then (i + 1) :: lineStartsAux rest (i + 1)
    else if c = '\r' then
      match rest with
      | [] => [i + 1]
      | c2 :: rest2 =>
        if c2 = '\n' then (i + 2) :: lineStartsAux rest2 (i + 2)
        else (i + 1) :: lineStartsAux (c2 :: rest2) (i + 1)
    else lineStartsAux rest (i + 1)

def lineStarts (text : List Char) : List Nat :=
  0 :: lineStartsAux text 0

/-- `TextDocument.positionAt`: clamp the offset, find the greatest line start
not exceeding it; the character is the distance from that line start. -/
def positionAt (text : List Char) (offset : Nat) : Pos :=
  let off := min offset text.length
  let starts := (lineStarts text).filter (fun s => decide (s ≤ off))
  let ls := (starts.getLast?).getD 0
  ⟨starts.length - 1, off - ls⟩

/-- `TextDocument.offsetAt`: clamp the position into the document. -/
def offsetAt (text : List Char) (p : Pos) : Nat :=
  let starts := lineStarts text
  if p.line < starts.length then
    let lo := starts.getD p.line 0
    let next := starts.getD (p.line + 1) text.length
    min (lo + p.character) next
  else text.length

/-! ## Block-Containment Oracle (`isInBlock`) -/

/-- Is the character at index `j` a word character (out of range: no)? -/
def wordAtIdx (cs : List Char) (j : Nat) : Bool :=
  match cs.get? j with
  | some c => isWordChar c
  | none => false

/-- JS `\b` word boundary at position `i` of `cs`: the word-character status
differs between the character before `i` and the character at `i` (a virtual
non-word character stands beyond either end). -/
def boundaryAt (cs : List Char) (i : Nat) : Bool :=
  match i with
  | 0 => wordAtIdx cs 0
  | j + 1 => wordAtIdx cs j != wordAtIdx cs (j + 1)

/-- Match `\s*\{` at the head of the list; return the number of characters
consumed (the whitespace run plus the brace). -/
def wsThenBrace : List Char → Option Nat
  | [] => none
  | c :: cs =>
    if c = '{' then some 1
    else if isSpaceChar c then (wsThenBrace cs).map (· + 1)
    else none

/-- Match the pattern `\b<name>\s*\{` at position `i` of `cs`; return the
total length of the match on success. -/
def matchPatAt (cs name : List Char) (i : Nat) : Option Nat :=
  if boundaryAt cs i && name.isPrefixOf (cs.drop i) then
    (wsThenBrace (cs.drop (i + name.length))).map (fun k => name.length + k)
  else none

/-- The `while ((match = blockPattern.exec(beforeCursor)) !== null)` loop:
scan left to right; after each match resume at its end; return the start
index of the last match found. -/
def execLastAux (cs name : List Char) : Nat → Nat → Option Nat → Option Nat
  | 0, _, acc => acc
  | fuel + 1, i, acc =>
    if cs.length < i then acc
    else
      match matchPatAt cs name i with
      | some len => execLastAux cs name fuel (i + len) (some i)
      | none => execLastAux cs name fuel (i + 1) acc

def execLast (cs name : List Char) : Option Nat :=
  execLastAux cs name (cs.length + 2) 0 none

/-- `isInBlock(text, offset, blockName)` from `languageModes.ts`: find the
last occurrence of `\b<blockName>\s*\{` in `text[0:offset]`; if none, false;
otherwise compare the brace counts from that occurrence to the cursor. -/
def isInBlock (text : List Char) (offset : Nat) (blockName : List Char) : Bool :=
  let beforeCursor := text.take offset
  match execLast beforeCursor blockName with
  | none => false
  | some lastBlockStart =>
    let afterBlock := beforeCursor.drop lastBlockStart
    afterBlock.count '{' > afterBlock.count '}'

/-- Specification-side oracle, written from the spec text: collect all
positions of `text[0:offset]` at which the pattern
"word-boundary, blockName, optional whitespace, open-brace" matches, take the
last one, and compare brace counts from it to the cursor. -/
def isInsideSpec (text : List Char) (offset : Nat) (blockName : List Char) : Bool :=
  let before := text.take offset
  let occurrences :=
    (List.range (before.length + 1)).filter
      (fun i => (matchPatAt before blockName i).isSome)
  match occurrences.getLast? with
  | none => false
  | some lastStart =>
    let tail := before.drop lastStart
    tail.count '{' > tail.count '}'

/-! ## Escape/String Scanner (`findInvalidEscapes`) -/

/-- Length of the maximal run of character `c` at the head of `l`. -/
def runLen (c : Char) (l : List Char) : Nat :=
  (l.takeWhile (fun d => d = c)).length

/-- Split the list at its first `"` character: return the part before it and
the part after it, or `none` when there is no `"`.  This is the lazy body
match `(.*?)"` of the string regex (with the `s` flag, so any character
including a newline may be in the body). -/
def splitAtQuote : List Char → Option (List Char × List Char)
  | [] => none
  | c :: cs =>
    if c = '"' then some ([], cs)
    else (splitAtQuote cs).map (fun p => (c :: p.1, p.2))

/-- Match the string regex `r*#*"(.*?)"#*` anchored at the head of `l`.
Returns `(match0, body, rest)`: the whole matched text, the captured body,
and the remainder of the input after the match.  The greedy `r*` and `#*`
runs must be maximal for the required `"` to follow (any shorter run leaves
an `r` or `#` where the quote is required, so backtracking cannot help). -/
def matchStringAt (l : List Char) : Option (List Char × List Char × List Char) :=
  let a := runLen 'r' l
  let l1 := l.drop a
  let b := runLen '#' l1
  let l2 := l1.drop b
  match l2 with
  | [] => none
  | c :: l3 =>
    if c = '"' then
      match splitAtQuote l3 with
      | none => none
      | some (body, l4) =>
        let c2 := runLen '#' l4
        some (l.take (a + b + 1 + body.length + 1 + c2), body, l4.drop c2)
    else none

/-- `kdlText.matchAll(stringRegex)`: scan left to right, resuming after each
match; collect `(match0, body)` pairs.  `fuel` bounds the recursion (the
initial fuel `l.length + 1` always suffices since every step consumes at
least one character). -/
def findStrings : Nat → List Char → List (List Char × List Char)
  | 0, _ => []
  | _, [] => []
  | fuel + 1, c :: cs =>
    match matchStringAt (c :: cs) with
    | some (m0, body, rest) => (m0, body) :: findStrings fuel rest
    | none => findStrings fuel cs

/-- The lookahead of the invalid-escape regex
`\\(?!([nrtbf"\\]|u[0-9A-Fa-f]{4}|U[0-9A-Fa-f]{8}))`: does an allow-listed
escape continuation start here? -/
def allowedAfterBackslash (l : List Char) : Bool :=
  match l with
  | [] => false
  | c :: rest =>
    if c = 'n' || c = 'r' || c = 't' || c = 'b' || c = 'f' || c = '"' || c = '\\' then
      true
    else if c = 'u' then
      decide ((rest.take 4).length = 4) && (rest.take 4).all isHexDigit
    else if c = 'U' then
      decide ((rest.take 8).length = 8) && (rest.take 8).all isHexDigit
    else false

/-- `content.matchAll(invalidEscape)`: every backslash whose continuation is
not allow-listed yields one match consisting of just that backslash (the
lookahead consumes nothing, and the scan resumes one character further in
either case). -/
def invalidEscapes : List Char → List (List Char)
  | [] => []
  | c :: rest =>
    if c = '\\' then
      (if allowedAfterBackslash rest then [] else [['\\']]) ++ invalidEscapes rest
    else invalidEscapes rest

/-- One element of the result of `findInvalidEscapes`: the full matched
string text and the invalid escapes found in its body. -/
structure EscapeFinding where
  str : List Char
  invalid : List (List Char)
  deriving DecidableEq, Repr

/-- `findInvalidEscapes(kdlText)` from `languageModes.ts`: match all string
literals, skip the ones whose match starts with `r` (raw), and report each
remaining literal whose body contains invalid escapes. -/
def findInvalidEscapes (kdlText : List Char) : List EscapeFinding :=
  (findStrings (kdlText.length + 1) kdlText).filterMap (fun m =>
    if m.1.head? = some 'r' then none
    else
      let bad := invalidEscapes m.2
      if bad.isEmpty then none else some ⟨m.1, bad⟩)

/-! ## Validation (`doValidation`) -/

/-- `line.trim().startsWith('//') || line.trim().startsWith('/*')`. -/
def isCommentLine (line : List Char) : Bool :=
  let t := line.dropWhile isSpaceChar
  (['/', '/'].isPrefixOf t) || (['/', '*'].isPrefixOf t)

/-- Count the matches of `/(?<!\\)"/g`: double quotes not immediately
preceded by a backslash (`prev` is the preceding character, if any). -/
def countUnescapedQuotesAux : Option Char → List Char → Nat
  | _, [] => 0
  | prev, c :: rest =>
    (if c = '"' && prev ≠ some '\\' then 1 else 0) + countUnescapedQuotesAux (some c) rest

def countUnescapedQuotes (line : List Char) : Nat :=
  countUnescapedQuotesAux none line

/-- `l.includes(needle)` : does `needle` occur as a contiguous substring? -/
def containsSub (needle : List Char) : List Char → Bool
  | [] => needle.isPrefixOf []
  | c :: rest => needle.isPrefixOf (c :: rest) || containsSub needle rest

/-- `hay.indexOf(needle, start)`: first index at or after `start` where
`needle` occurs, or `none`. -/
def indexOfFrom (hay needle : List Char) (start : Nat) : Option Nat :=
  (List.range (hay.length + 1)).find?
    (fun i => decide (start ≤ i) && needle.isPrefixOf (hay.drop i))

/-- The `"""` marker. -/
def tripleQuote : List Char := ['"', '"', '"']

/-- The invalid-escape diagnostics produced from the full document text:
for each reported string and each of its invalid escapes, re-locate the
escape by substring search (first the string from offset 0, then the escape
text from the string's found position). -/
def escapeDiagnostics (text : List Char) : List Diagnostic :=
  (findInvalidEscapes text).flatMap (fun f =>
    f.invalid.filterMap (fun bad =>
      let sIdx := (indexOfFrom text f.str 0).getD 0
      match indexOfFrom text bad sIdx with
      | none => none
      | some idx =>
        some ⟨.error, ⟨positionAt text idx, positionAt text (idx + bad.length)⟩,
          .invalidEscape bad⟩))

/-- The unclosed-string check for line `i`: an Error spanning the whole line
when the unescaped-quote count is odd and the line has no `"""`. -/
def unclosedDiagsFor (i : Nat) (line : List Char) : List Diagnostic :=
  if countUnescapedQuotes line % 2 ≠ 0 && !containsSub tripleQuote line then
    [⟨.error, ⟨⟨i, 0⟩, ⟨i, line.length⟩⟩, .unclosedString⟩]
  else []

/-- One iteration of the validation loop: comment lines are skipped entirely;
other lines contribute the unclosed-string check followed by the escape
diagnostics of the whole document (recomputed per line, as in the source). -/
def perLineDiagnostics (text : List Char) (i : Nat) (line : List Char) : List Diagnostic :=
  if isCommentLine line then []
  else unclosedDiagsFor i line ++ escapeDiagnostics text

/-- The document-level brace check: count every `{` and `}` in the full
text; on mismatch, one Warning spanning the whole document. -/
def braceDiagnostics (text : List Char) : List Diagnostic :=
  let lines := splitLines text
  let openBraces := text.count '{'
  let closeBraces := text.count '}'
  if openBraces ≠ closeBraces then
    [⟨.warning, ⟨⟨0, 0⟩, ⟨lines.length - 1, ((lines.getLast?).getD []).length⟩⟩,
      .unmatchedBraces openBraces closeBraces⟩]
  else []

/-- `doValidation` of the KDL mode: the per-line loop followed by the
document-level brace check. -/
def doValidation (text : List Char) : List Diagnostic :=
  let lines := splitLines text
  ((List.range lines.length).flatMap (fun i =>
    perLineDiagnostics text i (lines.getD i []))) ++ braceDiagnostics text

/-- `validateTextDocumentDiagnostics` from `server.ts` (and the push-path in
`validateTextDocument`): an empty list when validation is disabled,
otherwise the mode diagnostics truncated with `slice(0, maxNumberOfProblems)`. -/
structure KDLSettings where
  maxNumberOfProblems : Nat
  validate : Bool
  deriving DecidableEq, Repr

def validateTextDocumentDiagnostics (text : List Char) (settings : KDLSettings) :
    List Diagnostic :=
  if !settings.validate then []
  else (doValidation text).take settings.maxNumberOfProblems

/-! ## Completion: static reference tables -/

/-- A property entry: name, declared value kind, description. -/
structure NiriProperty where
  name : String
  valueType : String
  description : String
  deriving DecidableEq, Repr

def NIRI_NODES : List String :=
  ["input", "output", "binds", "layout", "animations",
   "window-rule", "layer-rule", "switch-events",
   "keyboard", "touchpad", "mouse", "trackpoint", "xkb",
   "focus-ring", "border", "shadow", "struts", "hotkey-overlay",
   "preset-column-widths", "preset-window-heights", "debug"]

def NIRI_FLAGS : List String :=
  ["tap", "dwt", "dwtp", "drag", "drag-lock", "natural-scroll",
   "numlock", "off", "warp-mouse-to-focus", "disabled-on-external-mouse",
   "scroll-button-lock", "middle-emulation",
   "prefer-no-csd", "skip-at-startup", "on",
   "draw-behind-window", "clip-to-geometry",
   "disable-cursor-plane", "render-drm-device",
   "open-floating", "open-maximized", "open-fullscreen"]

def NIRI_PROPERTIES : List NiriProperty :=
  [⟨"mode", "string", "Display mode (e.g., \"1920x1080@60\")"⟩,
   ⟨"scale", "number", "Display scale factor (e.g., 1.5 for 150%)"⟩,
   ⟨"transform", "string", "Display rotation (normal, 90, 180, 270, flipped-*)"⟩,
   ⟨"position", "position", "Display position (x=N y=N)"⟩,
   ⟨"x", "number", "X coordinate"⟩,
   ⟨"y", "number", "Y coordinate"⟩,
   ⟨"gaps", "number", "Gap size around windows in logical pixels"⟩,
   ⟨"width", "number", "Width in logical pixels"⟩,
   ⟨"height", "number", "Height in logical pixels"⟩,
   ⟨"proportion", "number", "Width as fraction of output (0.0-1.0)"⟩,
   ⟨"fixed", "number", "Fixed width in logical pixels"⟩,
   ⟨"center-focused-column", "string",
     "When to center column (\"never\", \"always\", \"on-overflow\")"⟩,
   ⟨"active-color", "color", "Color on active monitor (CSS color)"⟩,
   ⟨"inactive-color", "color", "Color on inactive monitors"⟩,
   ⟨"urgent-color", "color", "Color for windows requesting attention"⟩,
   ⟨"from", "color", "Gradient start color"⟩,
   ⟨"to", "color", "Gradient end color"⟩,
   ⟨"angle", "number", "Gradient angle in degrees"⟩,
   ⟨"relative-to", "string", "Gradient relative to (\"window\" or \"workspace-view\")"⟩,
   ⟨"in", "string", "Color space for gradient interpolation"⟩,
   ⟨"offset", "position", "Shadow offset (x=N y=N)"⟩,
   ⟨"softness", "number", "Shadow blur radius"⟩,
   ⟨"spread", "number", "Shadow spread/expansion"⟩,
   ⟨"color", "color", "Shadow color with opacity"⟩,
   ⟨"accel-speed", "number", "Pointer acceleration speed (-1.0 to 1.0)"⟩,
   ⟨"accel-profile", "string", "Acceleration profile (\"flat\" or \"adaptive\")"⟩,
   ⟨"scroll-method", "string", "Scroll method (two-finger, edge, on-button-down, no-scroll)"⟩,
   ⟨"scroll-button", "number", "Button number for scroll-method on-button-down"⟩,
   ⟨"max-scroll-amount", "string", "Maximum scroll for focus-follows-mouse (e.g., \"0%\")"⟩,
   ⟨"layout", "string", "Keyboard layout (e.g., \"us,ru\")"⟩,
   ⟨"variant", "string", "Keyboard layout variant"⟩,
   ⟨"options", "string", "XKB options (e.g., \"grp:win_space_toggle\")"⟩,
   ⟨"model", "string", "Keyboard model"⟩,
   ⟨"rules", "string", "XKB rules"⟩,
   ⟨"allow-inhibiting", "boolean", "Allow apps to inhibit this shortcut"⟩,
   ⟨"allow-when-locked", "boolean", "Allow binding when screen is locked"⟩,
   ⟨"repeat", "boolean", "Allow key repeat for this binding"⟩,
   ⟨"cooldown-ms", "number", "Rate limit binding to N milliseconds"⟩,
   ⟨"hotkey-overlay-title", "string", "Title shown in hotkey overlay (or null)"⟩,
   ⟨"match", "match", "Window matching criteria (app-id, title)"⟩,
   ⟨"app-id", "string", "Match by application ID"⟩,
   ⟨"title", "string", "Match by window title"⟩,
   ⟨"default-column-width", "block", "Default width for matched windows"⟩,
   ⟨"opacity", "number", "Window opacity (0.0-1.0)"⟩,
   ⟨"geometry-corner-radius", "number", "Window corner radius in pixels"⟩,
   ⟨"block-out-from", "string",
     "Block from capture (\"screen-capture\" or \"screencast\")"⟩,
   ⟨"draw-border-with-background", "boolean", "Draw border as background"⟩,
   ⟨"left", "number", "Left strut in logical pixels"⟩,
   ⟨"right", "number", "Right strut in logical pixels"⟩,
   ⟨"top", "number", "Top strut in logical pixels"⟩,
   ⟨"bottom", "number", "Bottom strut in logical pixels"⟩,
   ⟨"slowdown", "number", "Animation speed multiplier (>1 slows down, <1 speeds up)"⟩,
   ⟨"screenshot-path", "string", "Path for saving screenshots (or null)"⟩]

def NIRI_KEY_MODIFIERS : List String :=
  ["Mod", "Super", "Alt", "Ctrl", "Shift"]

def NIRI_SPECIAL_KEYS : List String :=
  ["Escape", "Return", "Space", "Tab", "Backspace", "Delete", "Slash",
   "Left", "Right", "Up", "Down",
   "Home", "End", "Page_Up", "Page_Down",
   "F1", "F2", "F3", "F4", "F5", "F6", "F7", "F8", "F9", "F10", "F11", "F12",
   "1", "2", "3", "4", "5", "6", "7", "8", "9", "0",
   "H", "J", "K", "L", "U", "I", "O", "Q", "R", "W", "C", "D", "E", "F", "P", "T", "V",
   "Minus", "Equal", "BracketLeft", "BracketRight", "Comma", "Period",
   "XF86AudioRaiseVolume", "XF86AudioLowerVolume", "XF86AudioMute",
   "XF86AudioMicMute", "XF86AudioPlay", "XF86AudioStop", "XF86AudioPrev", "XF86AudioNext",
   "XF86MonBrightnessUp", "XF86MonBrightnessDown",
   "Print",
   "WheelScrollDown", "WheelScrollUp", "WheelScrollLeft", "WheelScrollRight",
   "TouchpadScrollDown", "TouchpadScrollUp"]

def NIRI_ACTIONS : List String :=
  ["spawn", "spawn-sh", "spawn-at-startup", "spawn-sh-at-startup",
   "close-window", "quit",
   "focus-column-left", "focus-column-right",
   "focus-window-up", "focus-window-down",
   "focus-column-first", "focus-column-last",
   "focus-window-or-workspace-down", "focus-window-or-workspace-up",
   "move-column-left", "move-column-right",
   "move-window-up", "move-window-down",
   "move-column-to-first", "move-column-to-last",
   "move-window-down-or-to-workspace-down", "move-window-up-or-to-workspace-up",
   "focus-monitor-left", "focus-monitor-right", "focus-monitor-up", "focus-monitor-down",
   "move-column-to-monitor-left", "move-column-to-monitor-right",
   "move-column-to-monitor-up", "move-column-to-monitor-down",
   "move-window-to-monitor-left", "move-window-to-monitor-right",
   "move-window-to-monitor-up", "move-window-to-monitor-down",
   "move-workspace-to-monitor-left", "move-workspace-to-monitor-right",
   "move-workspace-to-monitor-up", "move-workspace-to-monitor-down",
   "focus-workspace-down", "focus-workspace-up", "focus-workspace-previous",
   "focus-workspace", "move-column-to-workspace-down", "move-column-to-workspace-up",
   "move-column-to-workspace", "move-window-to-workspace-down", "move-window-to-workspace-up",
   "move-window-to-workspace", "move-workspace-down", "move-workspace-up",
   "consume-or-expel-window-left", "consume-or-expel-window-right",
   "consume-window-into-column", "expel-window-from-column",
   "center-column", "center-visible-columns",
   "maximize-column", "fullscreen-window",
   "set-column-width", "set-window-height",
   "switch-preset-column-width", "switch-preset-column-width-back",
   "switch-preset-window-height", "reset-window-height",
   "expand-column-to-available-width",
   "toggle-window-floating", "switch-focus-between-floating-and-tiling",
   "toggle-column-tabbed-display",
   "switch-layout",
   "screenshot", "screenshot-screen", "screenshot-window",
   "toggle-keyboard-shortcuts-inhibit", "power-off-monitors",
   "show-hotkey-overlay", "toggle-overview",
   "toggle-debug-tint"]

def NIRI_TRANSFORM_VALUES : List String :=
  ["normal", "90", "180", "270", "flipped", "flipped-90", "flipped-180", "flipped-270"]

def NIRI_CENTER_COLUMN_VALUES : List String :=
  ["never", "always", "on-overflow"]

def NIRI_ACCEL_PROFILE_VALUES : List String :=
  ["flat", "adaptive"]

def NIRI_SCROLL_METHOD_VALUES : List String :=
  ["two-finger", "edge", "on-button-down", "no-scroll"]

/-- The node-description table of `getNodeDescription`, with its fallback. -/
def nodeDescriptionTable : List (String × String) :=
  [("input", "Input device configuration (keyboard, mouse, touchpad)"),
   ("output", "Display output configuration"),
   ("binds", "Keyboard shortcuts and key bindings"),
   ("layout", "Window layout and positioning settings"),
   ("animations", "Animation configuration"),
   ("window-rule", "Rules for specific windows"),
   ("focus-ring", "Focus indicator ring settings"),
   ("border", "Window border settings"),
   ("shadow", "Window shadow effects"),
   ("struts", "Screen edge reserved space"),
   ("hotkey-overlay", "Hotkey overlay display settings"),
   ("preset-column-widths", "Preset width configurations"),
   ("preset-window-heights", "Preset height configurations"),
   ("keyboard", "Keyboard input settings"),
   ("touchpad", "Touchpad input settings"),
   ("mouse", "Mouse input settings"),
   ("xkb", "XKB keyboard layout configuration")]

def getNodeDescription (nodeName : String) : String :=
  match nodeDescriptionTable.find? (fun x => x.1 = nodeName) with
  | some x => x.2
  | none => nodeName ++ " configuration block"

/-- `getRelevantProperties` from `languageModes.ts`: filter the property
table by the first applicable block context, in source order. -/
def getRelevantProperties (isOutput isLayout isFocusRing isBorder isShadow
    isInput isBinds isWindowRule : Bool) : List NiriProperty :=
  if isOutput then
    NIRI_PROPERTIES.filter (fun p =>
      p.name ∈ ["mode", "scale", "transform", "position", "x", "y"])
  else if isLayout then
    NIRI_PROPERTIES.filter (fun p =>
      p.name ∈ ["gaps", "center-focused-column", "proportion", "fixed", "width", "height"])
  else if isFocusRing || isBorder then
    NIRI_PROPERTIES.filter (fun p =>
      p.name ∈ ["width", "active-color", "inactive-color", "urgent-color", "from", "to",
        "angle", "relative-to", "in"])
  else if isShadow then
    NIRI_PROPERTIES.filter (fun p =>
      p.name ∈ ["offset", "x", "y", "softness", "spread", "color"])
  else if isInput then
    NIRI_PROPERTIES.filter (fun p =>
      p.name ∈ ["accel-speed", "accel-profile", "scroll-method", "scroll-button",
        "max-scroll-amount", "layout", "variant", "options", "model", "rules"])
  else if isBinds then
    NIRI_PROPERTIES.filter (fun p =>
      p.name ∈ ["allow-inhibiting", "allow-when-locked", "repeat", "cooldown-ms",
        "hotkey-overlay-title"])
  else if isWindowRule then
    NIRI_PROPERTIES.filter (fun p =>
      p.name ∈ ["match", "app-id", "title", "opacity", "geometry-corner-radius",
        "block-out-from", "draw-border-with-background"])
  else NIRI_PROPERTIES

/-! ## Completion: items and `doComplete` -/

/-- The `CompletionItemKind` values the source uses. -/
inductive CIKind where
  | value
  | enumMember
  | snippet
  | keyword
  | constant
  | classKind
  | property
  | function
  | color
  deriving DecidableEq, Repr

/-- A completion item with the fields the source populates. -/
structure CompletionItem where
  label : String
  kind : CIKind
  data : Option String := none
  detail : Option String := none
  insertText : Option String := none
  insertTextFormat : Option Nat := none
  sortText : Option String := none
  documentation : Option String := none
  deriving DecidableEq, Repr

/-- A completion list; the source always builds it with `isIncomplete = false`. -/
structure CompletionList where
  isIncomplete : Bool
  items : List CompletionItem
  deriving DecidableEq, Repr

/-- The value items for a `boolean` property. -/
def booleanValueItems : List CompletionItem :=
  [{ label := "#true", kind := .value, detail := some "Tagged boolean true" },
   { label := "#false", kind := .value, detail := some "Tagged boolean false" }]

def transformValueItems : List CompletionItem :=
  NIRI_TRANSFORM_VALUES.enum.map (fun iv =>
    { label := iv.2, kind := .enumMember, data := some ("transform_" ++ toString iv.1),
      detail := some ("Transform: " ++ iv.2) })

def centerColumnValueItems : List CompletionItem :=
  NIRI_CENTER_COLUMN_VALUES.enum.map (fun iv =>
    { label := "\"" ++ iv.2 ++ "\"", kind := .enumMember,
      data := some ("center_" ++ toString iv.1), detail := some iv.2,
      insertText := some ("\"" ++ iv.2 ++ "\"") })

def accelProfileValueItems : List CompletionItem :=
  NIRI_ACCEL_PROFILE_VALUES.enum.map (fun iv =>
    { label := "\"" ++ iv.2 ++ "\"", kind := .enumMember,
      data := some ("accel_" ++ toString iv.1), detail := some iv.2,
      insertText := some ("\"" ++ iv.2 ++ "\"") })

def scrollMethodValueItems : List CompletionItem :=
  NIRI_SCROLL_METHOD_VALUES.enum.map (fun iv =>
    { label := "\"" ++ iv.2 ++ "\"", kind := .enumMember,
      data := some ("scroll_" ++ toString iv.1), detail := some iv.2,
      insertText := some ("\"" ++ iv.2 ++ "\"") })

def stringSnippetItem : CompletionItem :=
  { label := "\"\"", kind := .snippet, detail := some "String value",
    insertText := some "\"$0\"", insertTextFormat := some 2 }

def numberValueItem : CompletionItem :=
  { label := "0", kind := .value, detail := some "Numeric value", insertText := some "0" }

def colorValueItems : List CompletionItem :=
  [{ label := "\"#7fc8ff\"", kind := .color, detail := some "Hex color",
     insertText := some "\"#7fc8ff\"" },
   { label := "\"rgb(255, 127, 0)\"", kind := .color, detail := some "RGB color",
     insertText := some "\"rgb($\x7b1:255\x7d, $\x7b2:127\x7d, $\x7b3:0\x7d)\"",
     insertTextFormat := some 2 },
   { label := "\"rgba(255, 127, 0, 0.5)\"", kind := .color, detail := some "RGBA color",
     insertText := some "\"rgba($\x7b1:255\x7d, $\x7b2:127\x7d, $\x7b3:0\x7d, $\x7b4:0.5\x7d)\"",
     insertTextFormat := some 2 }]

def positionValueItem : CompletionItem :=
  { label := "x=0 y=0", kind := .snippet, detail := some "Position coordinates",
    insertText := some "x=$\x7b1:0\x7d y=$\x7b2:0\x7d", insertTextFormat := some 2 }

/-- The "Always add basic value options" block: the literal items appended on
every property-value completion, in source order. -/
def universalLiteralItems : List CompletionItem :=
  [{ label := "true", kind := .value, detail := some "Boolean true" },
   { label := "false", kind := .value, detail := some "Boolean false" },
   { label := "null", kind := .value, detail := some "Null value" },
   { label := "#null", kind := .value, detail := some "Tagged null" },
   { label := "nan", kind := .value, detail := some "Not-a-Number" },
   { label := "#nan", kind := .value, detail := some "Tagged NaN" },
   { label := "inf", kind := .value, detail := some "Infinity" },
   { label := "-inf", kind := .value, detail := some "Negative Infinity" },
   { label := "#inf", kind := .value, detail := some "Tagged Infinity" },
   { label := "#-inf", kind := .value, detail := some "Tagged Negative Infinity" }]

/-- The items pushed on the property-value path (`if (propertyName) { ... }`):
the value-kind specific items for the property (nothing when the name is not
in the table, or its kind has no case in the switch), then always the
universal literal items. -/
def valueCompletions (propertyName : String) : List CompletionItem :=
  (match NIRI_PROPERTIES.find? (fun p => p.name = propertyName) with
   | none => []
   | some propDef =>
     match propDef.valueType with
     | "boolean" => booleanValueItems
     | "string" =>
       if propertyName = "transform" then transformValueItems
       else if propertyName = "center-focused-column" then centerColumnValueItems
       else if propertyName = "accel-profile" then accelProfileValueItems
       else if propertyName = "scroll-method" then scrollMethodValueItems
       else [stringSnippetItem]
     | "number" => [numberValueItem]
     | "color" => colorValueItems
     | "position" => [positionValueItem]
     | _ => []) ++ universalLiteralItems

/-- Key-modifier items (`Mod+`, `Super+`, ...), sort keys `0_<mod>`. -/
def modifierItems : List CompletionItem :=
  NIRI_KEY_MODIFIERS.enum.map (fun iv =>
    { label := iv.2 ++ "+", kind := .keyword, data := some ("modifier_" ++ toString iv.1),
      detail := some "Key modifier", insertText := some (iv.2 ++ "+"),
      sortText := some ("0_" ++ iv.2) })

/-- Special-key items, sort keys `1_<key>`. -/
def specialKeyItems : List CompletionItem :=
  NIRI_SPECIAL_KEYS.enum.map (fun iv =>
    { label := iv.2, kind := .constant, data := some ("key_" ++ toString iv.1),
      detail := some "Special key", insertText := some iv.2,
      sortText := some ("1_" ++ iv.2) })

/-- Node-name items. -/
def nodeItems : List CompletionItem :=
  NIRI_NODES.enum.map (fun iv =>
    { label := iv.2, kind := .classKind, data := some ("node_" ++ toString iv.1),
      detail := some (getNodeDescription iv.2), insertText := some iv.2,
      documentation := some (getNodeDescription iv.2) })

/-- Flag items. -/
def flagItems : List CompletionItem :=
  NIRI_FLAGS.enum.map (fun iv =>
    { label := iv.2, kind := .constant, data := some ("flag_" ++ toString iv.1),
      detail := some "Toggle flag (enabled when present)", insertText := some iv.2 })

/-- A property item at index `i` of the relevant-property list. -/
def propItemOf (iv : Nat × NiriProperty) : CompletionItem :=
  { label := iv.2.name, kind := .property, data := some ("prop_" ++ toString iv.1),
    detail := some iv.2.description, insertText := some (iv.2.name ++ "="),
    documentation := some ("Type: " ++ iv.2.valueType ++ "\n" ++ iv.2.description) }

/-- Action items, sort keys `2_<action>`. -/
def actionItems : List CompletionItem :=
  NIRI_ACTIONS.enum.map (fun iv =>
    { label := iv.2, kind := .function, data := some ("action_" ++ toString iv.1),
      detail := some (iv.2 ++ " action"), insertText := some iv.2,
      sortText := some ("2_" ++ iv.2) })

/-! ## Completion: context detection -/

/-- `/(\w+)=\s*$/.exec(linePrefix)`: the prefix must end in a word run, an
equals sign, and optional whitespace; the captured group is the maximal word
run immediately before the `=`. -/
def matchPropAssign (linePrefix : List Char) : Option (List Char) :=
  match linePrefix.reverse.dropWhile isSpaceChar with
  | [] => none
  | c :: rest =>
    if c = '=' then
      let w := rest.takeWhile isWordChar
      if w.isEmpty then none else some w.reverse
    else none

/-- `/^\s*$/.test(linePrefix)` : only whitespace before the cursor. -/
def lineStartTest (linePrefix : List Char) : Bool :=
  linePrefix.all isSpaceChar

/-- `/\{\s*$/.test(linePrefix)` : the prefix ends with `{` and whitespace. -/
def endsWithOpenBrace (linePrefix : List Char) : Bool :=
  match linePrefix.reverse.dropWhile isSpaceChar with
  | c :: _ => c = '{'
  | [] => false

/-- `/^\s*\w+\s+$/.test(linePrefix)` : whitespace, a word run, then at least
one trailing whitespace character and nothing else. -/
def bareNodeNameTest (linePrefix : List Char) : Bool :=
  let l1 := linePrefix.dropWhile isSpaceChar
  let w := l1.takeWhile isWordChar
  let rest := l1.drop w.length
  !w.isEmpty && !rest.isEmpty && rest.all isSpaceChar

def bindsChars : List Char := ("binds").toList
def inputChars : List Char := ("input").toList
def layoutChars : List Char := ("layout").toList
def focusRingChars : List Char := ("focus-ring").toList
def borderChars : List Char := ("border").toList
def shadowChars : List Char := ("shadow").toList
def outputChars : List Char := ("output").toList
def windowRuleChars : List Char := ("window-rule").toList

/-- The `linePrefix` local of `doComplete`: the current line up to the
cursor character. -/
def linePrefixAt (text : List Char) (pos : Pos) : List Char :=
  ((splitLines text).getD pos.line []).take pos.character

/-- `doComplete` of the KDL mode.  When the property-assignment regex
matches, the property-value path runs and returns immediately; otherwise the
four category sections are appended in source order (keybinding items, node
and flag items, context-filtered property items, action items).  In the
non-returning path `isAfterEquals` is null, so the property-section guard
`!isAfterEquals && !isAtLineStart` reduces to `!isAtLineStart`. -/
def doComplete (text : List Char) (pos : Pos) : CompletionList :=
  let offset := offsetAt text pos
  let linePrefix := linePrefixAt text pos
  match matchPropAssign linePrefix with
  | some nm => ⟨false, valueCompletions (String.mk nm)⟩
  | none =>
    let isAtLineStart := lineStartTest linePrefix
    let isInBraces := endsWithOpenBrace linePrefix
    let isAfterNodeName := bareNodeNameTest linePrefix
    let isInBindsBlock := isInBlock text offset bindsChars
    let isInInputBlock := isInBlock text offset inputChars
    let isInLayoutBlock := isInBlock text offset layoutChars
    let isInFocusRingBlock := isInBlock text offset focusRingChars
    let isInBorderBlock := isInBlock text offset borderChars
    let isInShadowBlock := isInBlock text offset shadowChars
    let isInOutputBlock := isInBlock text offset outputChars
    let isInWindowRuleBlock := isInBlock text offset windowRuleChars
    ⟨false,
      (if isInBindsBlock && isAtLineStart then modifierItems ++ specialKeyItems else []) ++
      (if (isAtLineStart || isInBraces) && !isInBindsBlock then nodeItems ++ flagItems else []) ++
      (if !isAtLineStart then
        ((getRelevantProperties isInOutputBlock isInLayoutBlock isInFocusRingBlock
          isInBorderBlock isInShadowBlock isInInputBlock isInBindsBlock
          isInWindowRuleBlock).enum.map propItemOf)
       else []) ++
      (if isAfterNodeName || isInBindsBlock then actionItems else [])⟩

/-! ## Specification-side definitions -/

/-- The context flags of spec §4.5, derived once per request. -/
structure Ctx where
  propertyName : Option String
  atLineStart : Bool
  afterOpenBrace : Bool
  afterBareNodeName : Bool
  inBinds : Bool
  inInput : Bool
  inLayout : Bool
  inFocusRing : Bool
  inBorder : Bool
  inShadow : Bool
  inOutput : Bool
  inWindowRule : Bool
  deriving DecidableEq, Repr

/-- Classify the cursor context from the document snapshot alone. -/
def classifyContext (text : List Char) (pos : Pos) : Ctx :=
  let offset := offsetAt text pos
  let linePrefix := linePrefixAt text pos
  { propertyName := (matchPropAssign linePrefix).map String.mk
    atLineStart := lineStartTest linePrefix
    afterOpenBrace := endsWithOpenBrace linePrefix
    afterBareNodeName := bareNodeNameTest linePrefix
    inBinds := isInBlock text offset bindsChars
    inInput := isInBlock text offset inputChars
    inLayout := isInBlock text offset layoutChars
    inFocusRing := isInBlock text offset focusRingChars
    inBorder := isInBlock text offset borderChars
    inShadow := isInBlock text offset shadowChars
    inOutput := isInBlock text offset outputChars
    inWindowRule := isInBlock text offset windowRuleChars }

/-- The synthesizer of spec §4.6, consuming only the context flags: the
property-value path is exclusive; otherwise the applicable category item
lists are unioned in the fixed order. -/
def synthFromCtx (c : Ctx) : CompletionList :=
  match c.propertyName with
  | some nm => ⟨false, valueCompletions nm⟩
  | none =>
    ⟨false,
      (if c.inBinds && c.atLineStart then modifierItems ++ specialKeyItems else []) ++
      (if (c.atLineStart || c.afterOpenBrace) && !c.inBinds then nodeItems ++ flagItems else []) ++
      (if !c.atLineStart then
        ((getRelevantProperties c.inOutput c.inLayout c.inFocusRing c.inBorder
          c.inShadow c.inInput c.inBinds c.inWindowRule).enum.map propItemOf)
       else []) ++
      (if c.afterBareNodeName || c.inBinds then actionItems else [])⟩

/-! Generator for documents whose non-raw strings are well formed and use
only escapes that the scanner's allow-list accepts and that its lazy
string-matching can actually scan past (everything in the allow-list except
`\"`, which terminates the lazy body match, and `\\`, whose second backslash
is re-examined by the escape regex). -/

/-- One body token: a plain character or a backslash escape. -/
inductive Tok where
  | plainTok (c : Char)
  | escTok (e : List Char)
  deriving DecidableEq, Repr

def Tok.render : Tok → List Char
  | .plainTok c => [c]
  | .escTok e => '\\' :: e

/-- The escape continuations that are always safe for the scanner:
`n r t b f`, `u` + 4 hex digits, `U` + 8 hex digits. -/
def safeEscChars (e : List Char) : Bool :=
  match e with
  | [c] => c = 'n' || c = 'r' || c = 't' || c = 'b' || c = 'f'
  | c :: rest =>
    (c = 'u' && decide (rest.length = 4) && rest.all isHexDigit) ||
    (c = 'U' && decide (rest.length = 8) && rest.all isHexDigit)
  | [] => false

def Tok.good : Tok → Bool
  | .plainTok c => decide (c ≠ '"') && decide (c ≠ '\\')
  | .escTok e => safeEscChars e

def renderBody (ts : List Tok) : List Char :=
  ts.flatMap Tok.render

def GoodBody (ts : List Tok) : Bool :=
  ts.all Tok.good

/-- A well-formed document: plain non-quote characters interleaved with
complete non-raw string literals whose bodies are good. -/
inductive GoodText : List Char → Prop where
  | nil : GoodText []
  | plain (c : Char) (rest : List Char) :
      c ≠ '"' → GoodText rest → GoodText (c :: rest)
  | lit (ts : List Tok) (rest : List Char) :
      GoodBody ts = true → GoodText rest →
      GoodText ('"' :: (renderBody ts ++ '"' :: rest))

/-! ## Helper predicates and lemmas -/

/-- Is this an invalid-escape diagnostic? -/
def isEscapeDiag (d : Diagnostic) : Bool :=
  match d.message with
  | .invalidEscape _ => true
  | _ => false

/-- Is this the brace-mismatch warning? -/
def isBraceDiag (d : Diagnostic) : Bool :=
  match d.message with
  | .unmatchedBraces _ _ => true
  | _ => false

/-- Is this an unclosed-string diagnostic whose range starts on line `i`? -/
def unclosedAtLine (i : Nat) (d : Diagnostic) : Bool :=
  (match d.message with
   | .unclosedString => true
   | _ => false) && decide (d.range.startPos.line = i)

theorem mem_escapeDiagnostics_msg {text : List Char} {d : Diagnostic}
    (hd : d ∈ escapeDiagnostics text) : ∃ bad, d.message = .invalidEscape bad := by
  unfold escapeDiagnostics at hd
  obtain ⟨f, _, hmem⟩ := List.mem_flatMap.1 hd
  obtain ⟨bad, _, hsome⟩ := List.mem_filterMap.1 hmem
  simp only [] at hsome
  split at hsome
  · simp at hsome
  · simp only [Option.some.injEq] at hsome
    exact ⟨bad, by rw [← hsome]⟩

theorem mem_unclosedDiagsFor {i : Nat} {line : List Char} {d : Diagnostic}
    (hd : d ∈ unclosedDiagsFor i line) :
    d = ⟨.error, ⟨⟨i, 0⟩, ⟨i, line.length⟩⟩, .unclosedString⟩ := by
  unfold unclosedDiagsFor at hd
  split at hd
  · simpa using hd
  · simp at hd

theorem countP_flatMap {α β : Type} (p : β → Bool) (f : α → List β) :
    ∀ l : List α, ((l.flatMap f).countP p) = (l.map (fun a => (f a).countP p)).sum
  | [] => rfl
  | a :: l => by
    simp only [List.flatMap_cons, List.countP_append, List.map_cons, List.sum_cons]
    rw [countP_flatMap p f l]

theorem sum_map_eq_zero {α : Type} {g : α → Nat} :
    ∀ {l : List α}, (∀ a ∈ l, g a = 0) → (l.map g).sum = 0
  | [], _ => rfl
  | a :: l, h => by
    simp only [List.map_cons, List.sum_cons, h a (List.mem_cons_self a l),
      Nat.zero_add]
    exact sum_map_eq_zero (fun b hb => h b (List.mem_cons_of_mem a hb))

theorem sum_map_range_single {g : Nat → Nat} :
    ∀ {n i : Nat}, i < n → (∀ j, j < n → j ≠ i → g j = 0) →
      (((List.range n).map g).sum) = g i := by
  intro n
  induction n with
  | zero => intro i hi; omega
  | succ n ih =>
    intro i hi hz
    rw [List.range_succ, List.map_append, List.sum_append]
    by_cases hin : i = n
    · subst hin
      have : (((List.range i).map g).sum) = 0 :=
        sum_map_eq_zero (fun j hj => by
          have hj' := List.mem_range.1 hj
          exact hz j (by omega) (by omega))
      simp [this]
    · have hi' : i < n := by omega
      have h1 := ih hi' (fun j hj hne => hz j (by omega) hne)
      have h2 : g n = 0 := hz n (by omega) (fun h => hin h.symm)
      simp [h1, h2]

/-! ## C7: document-level brace check -/

theorem perLine_countP_brace_zero (text : List Char) (i : Nat) (line : List Char) :
    (perLineDiagnostics text i line).countP isBraceDiag = 0 := by
  rw [List.countP_eq_zero]
  intro d hd
  unfold perLineDiagnostics at hd
  split at hd
  · simp at hd
  · rcases List.mem_append.1 hd with h | h
    · rw [mem_unclosedDiagsFor h]; simp [isBraceDiag]
    · obtain ⟨bad, hmsg⟩ := mem_escapeDiagnostics_msg h
      simp [isBraceDiag, hmsg]

/-- C7.  `doValidation` counts every brace of the full text (inside strings
and comments too): it emits exactly one brace-mismatch Warning, spanning the
whole document from line 0 character 0 to the end of the last line and
stating both counts, precisely when the `{` count differs from the `}`
count.  The claim's example input with a brace inside a string is covered by
the witness. -/
theorem brace_mismatch_warning (text : List Char) :
    ((doValidation text).countP isBraceDiag =
      if text.count '{' = text.count '}' then 0 else 1)
    ∧ (text.count '{' ≠ text.count '}' →
        (⟨.warning,
          ⟨⟨0, 0⟩, ⟨(splitLines text).length - 1,
            (((splitLines text).getLast?).getD []).length⟩⟩,
          .unmatchedBraces (text.count '{') (text.count '}')⟩ : Diagnostic)
          ∈ doValidation text) := by
  constructor
  · unfold doValidation
    rw [List.countP_append, countP_flatMap]
    rw [sum_map_eq_zero (fun j _ => perLine_countP_brace_zero text j _)]
    unfold braceDiagnostics
    split
    · next h => simp [h]
    · next h => simp [h, List.countP_cons, isBraceDiag]
  · intro hne
    unfold doValidation
    refine List.mem_append.2 (Or.inr ?_)
    simp only [braceDiagnostics]
    rw [if_pos hne]
    exact List.mem_singleton.2 rfl

def docCurlyProp : List Char := ("node prop=\"\x7b\"").toList

theorem brace_mismatch_warning_witness :
    docCurlyProp.count '{' = 1 ∧ docCurlyProp.count '}' = 0 ∧
    (⟨.warning,
      ⟨⟨0, 0⟩, ⟨(splitLines docCurlyProp).length - 1,
        (((splitLines docCurlyProp).getLast?).getD []).length⟩⟩,
      .unmatchedBraces (docCurlyProp.count '{') (docCurlyProp.count '}')⟩ : Diagnostic)
      ∈ doValidation docCurlyProp :=
  ⟨by decide, by decide, (brace_mismatch_warning docCurlyProp).2 (by decide)⟩

/-! ## C8: diagnostics cap is truncation in discovery order -/

/-- C8.  The published diagnostics are `doValidation` truncated with
`slice(0, maxNumberOfProblems)`: the published list has length
`min N (full length)` and agrees with the full list position by position
below the cap — truncation in discovery order, not prioritization. -/
theorem diagnostics_truncation (text : List Char) (n : Nat) :
    (validateTextDocumentDiagnostics text ⟨n, true⟩).length =
      min n (doValidation text).length
    ∧ ∀ i, i < n →
        (validateTextDocumentDiagnostics text ⟨n, true⟩)[i]? = (doValidation text)[i]? := by
  constructor
  · simp [validateTextDocumentDiagnostics]
  · intro i hi
    simp only [validateTextDocumentDiagnostics, Bool.not_true, Bool.false_eq_true,
      if_false]
    exact List.getElem?_take_of_lt hi

def docThreeViolations : List Char := ("\"\n\"\n\"").toList

theorem diagnostics_truncation_witness :
    (doValidation docThreeViolations).length = 3 ∧
    (validateTextDocumentDiagnostics docThreeViolations ⟨1, true⟩).length =
      min 1 (doValidation docThreeViolations).length ∧
    (validateTextDocumentDiagnostics docThreeViolations ⟨1, true⟩)[0]? =
      (doValidation docThreeViolations)[0]? :=
  ⟨by decide, (diagnostics_truncation docThreeViolations 1).1,
    (diagnostics_truncation docThreeViolations 1).2 0 (by decide)⟩

/-! ## C2: the escaped quote terminates the lazy string match -/

theorem splitAtQuote_eq {l b r : List Char} (h : splitAtQuote l = some (b, r)) :
    l = b ++ '"' :: r ∧ '"' ∉ b := by
  induction l generalizing b r with
  | nil => simp [splitAtQuote] at h
  | cons c cs ih =>
    unfold splitAtQuote at h
    split at h
    · next hc =>
      simp only [Option.some.injEq, Prod.mk.injEq] at h
      obtain ⟨hb, hr⟩ := h
      subst hb hr hc
      exact ⟨rfl, by simp⟩
    · next hc =>
      cases hsq : splitAtQuote cs with
      | none => rw [hsq] at h; simp at h
      | some p =>
        rw [hsq] at h
        have h' : (c :: p.1, p.2) = (b, r) := by
          have := h
          simp only [Option.map] at this
          exact Option.some.inj this
        obtain ⟨hb, hr⟩ := Prod.mk.injEq _ _ _ _ ▸ h'
        obtain ⟨heq, hnot⟩ := ih (b := p.1) (r := p.2) (by rw [hsq])
        subst hb hr
        refine ⟨by rw [List.cons_append, ← heq], ?_⟩
        intro hmem
        rcases List.mem_cons.1 hmem with h | h
        · exact hc h.symm
        · exact hnot h

theorem matchStringAt_no_quote {l m0 body rest : List Char}
    (h : matchStringAt l = some (m0, body, rest)) : '"' ∉ body := by
  simp only [matchStringAt] at h
  split at h
  · simp at h
  · split at h
    · split at h
      · simp at h
      · next hsq =>
        simp only [Option.some.injEq, Prod.mk.injEq] at h
        obtain ⟨-, hb, -⟩ := h
        subst hb
        exact (splitAtQuote_eq hsq).2
    · simp at h

theorem findStrings_no_quote :
    ∀ (fuel : Nat) (t : List Char) (m : List Char × List Char),
      m ∈ findStrings fuel t → '"' ∉ m.2 := by
  intro fuel
  induction fuel with
  | zero => intro t m hm; simp [findStrings] at hm
  | succ fuel ih =>
    intro t m hm
    match t with
    | [] => simp [findStrings] at hm
    | c :: cs =>
      unfold findStrings at hm
      split at hm
      · next m0 body rest hms =>
        rcases List.mem_cons.1 hm with h | h
        · subst h; exact matchStringAt_no_quote hms
        · exact ih rest m h
      · exact ih cs m hm

def docEscapedQuote : List Char := ("\"a\\\"b\"").toList

/-- C2 evaluation at the failing input.  For the document `"a\"b"` the
string scanner stops its lazy body match at the escaped quote: the only
match found is the four characters `"a\"` with body `a\` (the trailing `b"`
is not part of any matched literal), and the trailing backslash of that
truncated body is flagged as an invalid escape — whereas the claim says the
scanner advances past `\"` and applies escape checking to the body beyond
it.  The helper `findStrings_no_quote` shows this is structural: a body
produced by the string scanner never contains a quote character at all, so
the `\"` case of the escape allow-list is unreachable — evidence that the
claim reflects the intent and the string regex is the slip. -/
theorem escaped_quote_terminates_match :
    findStrings (docEscapedQuote.length + 1) docEscapedQuote =
      [(['"', 'a', '\\', '"'], ['a', '\\'])]
    ∧ findInvalidEscapes docEscapedQuote =
      [⟨['"', 'a', '\\', '"'], [['\\']]⟩]
    ∧ '"' ∉ ['a', '\\'] :=
  ⟨by decide, by decide, findStrings_no_quote _ docEscapedQuote _
    (by rw [(by decide : findStrings (docEscapedQuote.length + 1) docEscapedQuote =
      [(['"', 'a', '\\', '"'], ['a', '\\'])])]; exact List.mem_singleton.2 rfl)⟩

/-! ## C4: property-value completion path -/

/-- Does the item's opaque data tag start with the given category prefix? -/
def hasDataTag (pre : String) (it : CompletionItem) : Bool :=
  match it.data with
  | some d => pre.data.isPrefixOf d.data
  | none => false

/-- Does the item belong to one of the non-value categories (node, flag,
key-modifier, special-key, action, property)? -/
def isOtherCategoryItem (it : CompletionItem) : Bool :=
  hasDataTag "node_" it || hasDataTag "flag_" it || hasDataTag "modifier_" it ||
  hasDataTag "key_" it || hasDataTag "action_" it || hasDataTag "prop_" it

theorem valueCompletions_no_other :
    ∀ p ∈ NIRI_PROPERTIES, ∀ it ∈ valueCompletions p.name,
      isOtherCategoryItem it = false := by decide

theorem valueCompletions_tagged_true_iff :
    ∀ p ∈ NIRI_PROPERTIES,
      ((({ label := "#true", kind := .value, detail := some "Tagged boolean true" } :
        CompletionItem) ∈ valueCompletions p.name) ↔ p.valueType = "boolean") := by decide

def docGapsAssign : List Char := ("gaps=").toList

/-- Counterexample to C4 as stated: for the line prefix `gaps=` the property
name `gaps` is found in the table (value-kind `number`), yet the returned
completion list contains no item labelled `#true` — the "universal" literal
set appended on this path has only bare `true`/`false` plus tagged
`#null`/`#nan`/`#inf`/`#-inf`; tagged booleans appear only for
boolean-kind properties. -/
theorem property_value_missing_tagged_true :
    matchPropAssign (("gaps=").toList) = some (("gaps").toList)
    ∧ (NIRI_PROPERTIES.find? (fun p => p.name = "gaps")).isSome = true
    ∧ ∀ it ∈ (doComplete docGapsAssign ⟨0, 5⟩).items, it.label ≠ "#true" :=
  ⟨by decide, by decide, by decide⟩

/-- C4 (amended).  When the line prefix matches a property assignment whose
captured name is in the property table, the property-value path is
exclusive: the result is exactly `valueCompletions` for that name, it
contains every universal literal item (bare true, false, null, nan, inf,
-inf and tagged #null, #nan, #inf, #-inf), no item of any other category, and the tagged
boolean items appear exactly when the property's declared value-kind is
`boolean`. -/
theorem property_value_completions (text : List Char) (pos : Pos)
    (nm : List Char) (p : NiriProperty)
    (hm : matchPropAssign (linePrefixAt text pos) =
      some nm)
    (hf : NIRI_PROPERTIES.find? (fun q => q.name = String.mk nm) = some p) :
    (doComplete text pos).items = valueCompletions (String.mk nm)
    ∧ (∀ it ∈ universalLiteralItems, it ∈ (doComplete text pos).items)
    ∧ (∀ it ∈ (doComplete text pos).items, isOtherCategoryItem it = false)
    ∧ ((({ label := "#true", kind := .value, detail := some "Tagged boolean true" } :
        CompletionItem) ∈ (doComplete text pos).items) ↔ p.valueType = "boolean") := by
  have hname : p.name = String.mk nm := by
    have := List.find?_some hf
    simpa using this
  have hmem : p ∈ NIRI_PROPERTIES := List.mem_of_find?_eq_some hf
  have hitems : (doComplete text pos).items = valueCompletions (String.mk nm) := by
    simp only [doComplete, hm]
  refine ⟨hitems, ?_, ?_, ?_⟩
  · intro it hit
    rw [hitems]
    unfold valueCompletions
    exact List.mem_append_right _ hit
  · intro it hit
    rw [hitems, ← hname] at hit
    exact valueCompletions_no_other p hmem it hit
  · rw [hitems, ← hname]
    exact valueCompletions_tagged_true_iff p hmem

theorem property_value_completions_witness :
    (doComplete docGapsAssign ⟨0, 5⟩).items =
      valueCompletions (String.mk (("gaps").toList))
    ∧ ∀ it ∈ universalLiteralItems, it ∈ (doComplete docGapsAssign ⟨0, 5⟩).items :=
  ⟨(property_value_completions docGapsAssign ⟨0, 5⟩ (("gaps").toList)
      ⟨"gaps", "number", "Gap size around windows in logical pixels"⟩
      (by decide) (by decide)).1,
   (property_value_completions docGapsAssign ⟨0, 5⟩ (("gaps").toList)
      ⟨"gaps", "number", "Gap size around windows in logical pixels"⟩
      (by decide) (by decide)).2.1⟩

/-! ## C5: completions inside the binds block -/

theorem lineStart_no_propAssign {l : List Char} (h : lineStartTest l = true) :
    matchPropAssign l = none := by
  have hrev : l.reverse.dropWhile isSpaceChar = [] := by
    rw [List.dropWhile_eq_nil_iff]
    intro x hx
    exact List.all_eq_true.1 h x (List.mem_reverse.1 hx)
  unfold matchPropAssign
  rw [hrev]

theorem openBrace_no_propAssign {l : List Char} (h : endsWithOpenBrace l = true) :
    matchPropAssign l = none := by
  unfold endsWithOpenBrace at h
  unfold matchPropAssign
  cases hrev : l.reverse.dropWhile isSpaceChar with
  | nil => simp [hrev] at h
  | cons c rest =>
    rw [hrev] at h
    have hc : c = '{' := by simpa using h
    subst hc
    simp

set_option maxRecDepth 8000 in
/-- C5.  At line start inside the binds block the completion list is exactly
the key-modifier items followed by the special-key items followed by the
action items — all modifiers, all special keys and all actions are offered,
and no node or flag item occurs.  Outside the binds block, all node items
and all flag items are offered whenever the cursor is at line start or right
after an open brace. -/
theorem binds_block_completions (text : List Char) (pos : Pos) :
    ((isInBlock text (offsetAt text pos) bindsChars = true) →
      (lineStartTest (linePrefixAt text pos) = true) →
      (doComplete text pos).items = modifierItems ++ specialKeyItems ++ actionItems
      ∧ ∀ it ∈ (doComplete text pos).items,
          hasDataTag "node_" it = false ∧ hasDataTag "flag_" it = false)
    ∧ ((isInBlock text (offsetAt text pos) bindsChars = false) →
        (lineStartTest (linePrefixAt text pos) = true ∨
          endsWithOpenBrace (linePrefixAt text pos) = true) →
        (∀ it ∈ nodeItems, it ∈ (doComplete text pos).items)
        ∧ ∀ it ∈ flagItems, it ∈ (doComplete text pos).items) := by
  constructor
  · intro hb hls
    have hm := lineStart_no_propAssign hls
    have hitems : (doComplete text pos).items =
        modifierItems ++ specialKeyItems ++ actionItems := by
      simp only [doComplete]
      rw [hm]
      simp [hb, hls]
    refine ⟨hitems, ?_⟩
    rw [hitems]
    decide
  · intro hb hor
    have hm : matchPropAssign (linePrefixAt text pos) =
        none := by
      rcases hor with h | h
      · exact lineStart_no_propAssign h
      · exact openBrace_no_propAssign h
    have hcond : (lineStartTest (linePrefixAt text pos) ||
        endsWithOpenBrace (linePrefixAt text pos)) = true := by
      rcases hor with h | h
      · simp [h]
      · simp [h]
    constructor
    · intro it hit
      simp only [doComplete]
      rw [hm]
      simp [hb, hit]
      tauto
    · intro it hit
      simp only [doComplete]
      rw [hm]
      simp [hb, hit]
      tauto

def docBindsBlank : List Char := ("binds \x7b\n  \n\x7d").toList

def docEmptyDoc : List Char := ("").toList

theorem binds_block_completions_witness :
    ((doComplete docBindsBlank ⟨1, 2⟩).items =
      modifierItems ++ specialKeyItems ++ actionItems)
    ∧ ∀ it ∈ nodeItems, it ∈ (doComplete docEmptyDoc ⟨0, 0⟩).items :=
  ⟨((binds_block_completions docBindsBlank ⟨1, 2⟩).1 (by decide) (by decide)).1,
   fun it hit =>
     ((binds_block_completions docEmptyDoc ⟨0, 0⟩).2 (by decide)
       (Or.inl (by decide))).1 it hit⟩

/-! ## C6: per-line unclosed-string heuristic and comment skipping -/

theorem countP_unclosed_escape_zero (text : List Char) (i : Nat) :
    (escapeDiagnostics text).countP (unclosedAtLine i) = 0 := by
  rw [List.countP_eq_zero]
  intro d hd
  obtain ⟨bad, hmsg⟩ := mem_escapeDiagnostics_msg hd
  simp [unclosedAtLine, hmsg]

theorem countP_unclosed_brace_zero (text : List Char) (i : Nat) :
    (braceDiagnostics text).countP (unclosedAtLine i) = 0 := by
  rw [List.countP_eq_zero]
  intro d hd
  simp only [braceDiagnostics] at hd
  split at hd
  · rw [List.mem_singleton.1 hd]
    simp [unclosedAtLine]
  · simp at hd

theorem countP_unclosed_perLine_ne (text : List Char) {j i : Nat} (line : List Char)
    (hne : j ≠ i) :
    (perLineDiagnostics text j line).countP (unclosedAtLine i) = 0 := by
  unfold perLineDiagnostics
  split
  · rfl
  · rw [List.countP_append, countP_unclosed_escape_zero]
    unfold unclosedDiagsFor
    split
    · simp [unclosedAtLine, hne]
    · rfl

theorem countP_unclosed_perLine_eq (text : List Char) (i : Nat) (line : List Char) :
    (perLineDiagnostics text i line).countP (unclosedAtLine i) =
      if isCommentLine line = false ∧ countUnescapedQuotes line % 2 ≠ 0 ∧
          containsSub tripleQuote line = false then 1 else 0 := by
  unfold perLineDiagnostics
  split
  · next hc =>
    rw [if_neg]
    · rfl
    · rintro ⟨hfalse, -, -⟩
      rw [hc] at hfalse
      exact absurd hfalse (by simp)
  · next hc =>
    have hcf : isCommentLine line = false := by
      cases h : isCommentLine line
      · rfl
      · exact absurd h hc
    rw [List.countP_append, countP_unclosed_escape_zero, Nat.add_zero]
    unfold unclosedDiagsFor
    split
    · next hcond =>
      rw [Bool.and_eq_true] at hcond
      have h1 : countUnescapedQuotes line % 2 ≠ 0 := by simpa using hcond.1
      have h2 : containsSub tripleQuote line = false := by simpa using hcond.2
      rw [if_pos ⟨hcf, h1, h2⟩]
      simp [unclosedAtLine]
    · next hcond =>
      rw [if_neg]
      · rfl
      · rintro ⟨-, h1, h2⟩
        rw [Bool.and_eq_true] at hcond
        exact hcond ⟨decide_eq_true h1, by rw [h2]; exact Bool.not_false⟩

/-- C6 (amended).  For every line: a line whose trimmed content begins with
a line- or block-comment marker is skipped entirely (its iteration yields no
diagnostic); for the other lines, the validator emits exactly one
unclosed-string Error spanning the whole line precisely when the count of
double quotes not preceded by a backslash is odd and the line has no `"""`
marker — counted over the full validation output, so no other check ever
produces an unclosed-string diagnostic on that line.  (Document-level
checks still see comment content, so a comment line can carry a
document-level diagnostic; see the counterexample.) -/
theorem unclosed_string_per_line (text : List Char) (i : Nat)
    (hi : i < (splitLines text).length) :
    (isCommentLine ((splitLines text).getD i []) = true →
      perLineDiagnostics text i ((splitLines text).getD i []) = [])
    ∧ ((doValidation text).countP (unclosedAtLine i) =
        if isCommentLine ((splitLines text).getD i []) = false ∧
            countUnescapedQuotes ((splitLines text).getD i []) % 2 ≠ 0 ∧
            containsSub tripleQuote ((splitLines text).getD i []) = false
        then 1 else 0)
    ∧ (isCommentLine ((splitLines text).getD i []) = false →
        countUnescapedQuotes ((splitLines text).getD i []) % 2 ≠ 0 →
        containsSub tripleQuote ((splitLines text).getD i []) = false →
        (⟨.error, ⟨⟨i, 0⟩, ⟨i, ((splitLines text).getD i []).length⟩⟩,
          .unclosedString⟩ : Diagnostic) ∈ doValidation text) := by
  refine ⟨?_, ?_, ?_⟩
  · intro hc
    unfold perLineDiagnostics
    rw [if_pos hc]
  · simp only [doValidation]
    rw [List.countP_append, countP_unclosed_brace_zero, Nat.add_zero, countP_flatMap]
    rw [sum_map_range_single hi
      (fun j _ hne => countP_unclosed_perLine_ne text _ hne)]
    exact countP_unclosed_perLine_eq text i _
  · intro hc h1 h2
    simp only [doValidation]
    refine List.mem_append.2 (Or.inl ?_)
    refine List.mem_flatMap.2 ⟨i, List.mem_range.2 hi, ?_⟩
    unfold perLineDiagnostics
    rw [if_neg (by rw [hc]; exact Bool.false_ne_true)]
    refine List.mem_append.2 (Or.inl ?_)
    unfold unclosedDiagsFor
    rw [if_pos (Bool.and_eq_true _ _ ▸ ⟨decide_eq_true h1, by rw [h2]; exact Bool.not_false⟩)]
    exact List.mem_singleton.2 rfl

def docCommentCurly : List Char := ("// \x7b").toList

/-- Counterexample to C6 as stated: the document consisting of the single
line-comment line containing a brace produces a diagnostic (the
document-level brace-mismatch warning, whose range lies on that comment
line), so it is not the case that a line consisting solely of a line-comment
produces no diagnostic at all regardless of content. -/
theorem comment_line_diag_counterexample :
    isCommentLine ((splitLines docCommentCurly).getD 0 []) = true
    ∧ doValidation docCommentCurly =
        [⟨.warning, ⟨⟨0, 0⟩, ⟨0, 4⟩⟩, .unmatchedBraces 1 0⟩] :=
  ⟨by decide, by decide⟩

def docCommentTrue : List Char := ("// true").toList

def docMixedComment : List Char := ("// c\n\"").toList

theorem unclosed_string_per_line_witness :
    doValidation docCommentTrue = []
    ∧ perLineDiagnostics docMixedComment 0 ((splitLines docMixedComment).getD 0 []) = []
    ∧ (doValidation docMixedComment).countP (unclosedAtLine 1) = 1 :=
  ⟨by decide,
   (unclosed_string_per_line docMixedComment 0 (by decide)).1 (by decide),
   by
     have h := (unclosed_string_per_line docMixedComment 1 (by decide)).2.1
     rw [h]
     decide⟩

/-! ## C10: property subset priority -/

def outputPropNames : List String := ["mode", "scale", "transform", "position", "x", "y"]

def layoutPropNames : List String :=
  ["gaps", "center-focused-column", "proportion", "fixed", "width", "height"]

def ringBorderPropNames : List String :=
  ["width", "active-color", "inactive-color", "urgent-color", "from", "to", "angle",
   "relative-to", "in"]

def shadowPropNames : List String := ["offset", "x", "y", "softness", "spread", "color"]

def inputPropNames : List String :=
  ["accel-speed", "accel-profile", "scroll-method", "scroll-button", "max-scroll-amount",
   "layout", "variant", "options", "model", "rules"]

def bindsPropNames : List String :=
  ["allow-inhibiting", "allow-when-locked", "repeat", "cooldown-ms", "hotkey-overlay-title"]

def windowRulePropNames : List String :=
  ["match", "app-id", "title", "opacity", "geometry-corner-radius", "block-out-from",
   "draw-border-with-background"]

/-- Is this item of the property kind? -/
def isPropKindItem (it : CompletionItem) : Bool :=
  it.kind = CIKind.property

theorem filter_if_nil {p : CompletionItem → Bool} (c : Bool) {l : List CompletionItem}
    (h : l.filter p = []) : (if c = true then l else []).filter p = [] := by
  cases c
  · simp
  · simpa using h

theorem filter_prop_sections (c1 c2 c3 c4 : Bool) (C : List CompletionItem)
    (hC : C.filter isPropKindItem = C) (hc3 : c3 = true) :
    ((((if c1 = true then modifierItems ++ specialKeyItems else []) ++
      (if c2 = true then nodeItems ++ flagItems else [])) ++
      (if c3 = true then C else [])) ++
      (if c4 = true then actionItems else [])).filter isPropKindItem = C := by
  subst hc3
  rw [List.filter_append, List.filter_append, List.filter_append]
  rw [filter_if_nil c1 (by decide), filter_if_nil c2 (by decide),
    filter_if_nil c4 (by decide)]
  simp [hC]

theorem filter_map_propItemOf (xs : List (Nat × NiriProperty)) :
    (xs.map propItemOf).filter isPropKindItem = xs.map propItemOf := by
  rw [List.filter_eq_self]
  intro a ha
  obtain ⟨x, -, hx⟩ := List.mem_map.1 ha
  rw [← hx]
  rfl

/-- C10.  The property subset offered is selected by the fixed priority
order of `getRelevantProperties` — output first, then layout, then
focus-ring or border, then shadow, then input, then binds, then window-rule
— lower-priority flags are ignored whenever a higher one is set; the full
property table is returned exactly when all eight flags are false; and on a
completion request that emits property items (no property assignment before
the cursor, cursor not at line start), the property-kind items of the
returned list are exactly the items built from `getRelevantProperties`
applied to the eight block-containment flags at the cursor. -/
theorem relevant_properties_priority :
    (∀ l fr b s i bi w, getRelevantProperties true l fr b s i bi w =
        NIRI_PROPERTIES.filter (fun p => p.name ∈ outputPropNames))
    ∧ (∀ fr b s i bi w, getRelevantProperties false true fr b s i bi w =
        NIRI_PROPERTIES.filter (fun p => p.name ∈ layoutPropNames))
    ∧ (∀ fr b s i bi w, (fr || b) = true → getRelevantProperties false false fr b s i bi w =
        NIRI_PROPERTIES.filter (fun p => p.name ∈ ringBorderPropNames))
    ∧ (∀ i bi w, getRelevantProperties false false false false true i bi w =
        NIRI_PROPERTIES.filter (fun p => p.name ∈ shadowPropNames))
    ∧ (∀ bi w, getRelevantProperties false false false false false true bi w =
        NIRI_PROPERTIES.filter (fun p => p.name ∈ inputPropNames))
    ∧ (∀ w, getRelevantProperties false false false false false false true w =
        NIRI_PROPERTIES.filter (fun p => p.name ∈ bindsPropNames))
    ∧ (getRelevantProperties false false false false false false false true =
        NIRI_PROPERTIES.filter (fun p => p.name ∈ windowRulePropNames))
    ∧ (∀ o l fr b s i bi w, getRelevantProperties o l fr b s i bi w = NIRI_PROPERTIES ↔
        (o = false ∧ l = false ∧ fr = false ∧ b = false ∧ s = false ∧ i = false ∧
         bi = false ∧ w = false))
    ∧ (∀ text pos, matchPropAssign (linePrefixAt text pos) = none →
        lineStartTest (linePrefixAt text pos) = false →
        ((doComplete text pos).items.filter isPropKindItem =
          (getRelevantProperties
            (isInBlock text (offsetAt text pos) outputChars)
            (isInBlock text (offsetAt text pos) layoutChars)
            (isInBlock text (offsetAt text pos) focusRingChars)
            (isInBlock text (offsetAt text pos) borderChars)
            (isInBlock text (offsetAt text pos) shadowChars)
            (isInBlock text (offsetAt text pos) inputChars)
            (isInBlock text (offsetAt text pos) bindsChars)
            (isInBlock text (offsetAt text pos) windowRuleChars)).enum.map propItemOf)) := by
  refine ⟨?_, ?_, ?_, ?_, ?_, ?_, ?_, ?_, ?_⟩
  · intro l fr b s i bi w; rfl
  · intro fr b s i bi w; rfl
  · intro fr b s i bi w hfb
    cases fr
    · cases b
      · simp at hfb
      · rfl
    · rfl
  · intro i bi w; rfl
  · intro bi w; rfl
  · intro w; rfl
  · rfl
  · intro o l fr b s i bi w
    unfold getRelevantProperties
    split_ifs with h1 h2 h3 h4 h5 h6 h7
    · exact iff_of_false (by decide) (by simp [h1])
    · exact iff_of_false (by decide) (by simp [h2])
    · rcases Bool.or_eq_true _ _ ▸ h3 with h | h
      · exact iff_of_false (by decide) (by simp [h])
      · exact iff_of_false (by decide) (by simp [h])
    · exact iff_of_false (by decide) (by simp [h4])
    · exact iff_of_false (by decide) (by simp [h5])
    · exact iff_of_false (by decide) (by simp [h6])
    · exact iff_of_false (by decide) (by simp [h7])
    · refine iff_of_true rfl ?_
      have hfb : fr = false ∧ b = false := by
        constructor
        · cases hfr : fr
          · rfl
          · exact absurd (by simp [hfr]) h3
        · cases hb : b
          · rfl
          · exact absurd (by simp [hb]) h3
      exact ⟨Bool.eq_false_iff.2 (fun h => h1 h), Bool.eq_false_iff.2 (fun h => h2 h),
        hfb.1, hfb.2, Bool.eq_false_iff.2 (fun h => h4 h),
        Bool.eq_false_iff.2 (fun h => h5 h), Bool.eq_false_iff.2 (fun h => h6 h),
        Bool.eq_false_iff.2 (fun h => h7 h)⟩
  · intro text pos hm hls
    simp only [doComplete, hm]
    refine filter_prop_sections _ _ _ _ _ (filter_map_propItemOf _) ?_
    rw [hls]
    rfl

def docNestedBlocks : List Char := ("output \x7b\n layout \x7b\n  a\n\x7d\n\x7d").toList

theorem relevant_properties_priority_witness :
    getRelevantProperties true true true true true true true true =
      NIRI_PROPERTIES.filter (fun p => p.name ∈ outputPropNames)
    ∧ (getRelevantProperties false false true true false false false false =
        NIRI_PROPERTIES.filter (fun p => p.name ∈ ringBorderPropNames))
    ∧ (getRelevantProperties false false false false false false false false =
        NIRI_PROPERTIES)
    ∧ ((doComplete docNestedBlocks ⟨2, 3⟩).items.filter isPropKindItem =
        (getRelevantProperties
          (isInBlock docNestedBlocks (offsetAt docNestedBlocks ⟨2, 3⟩) outputChars)
          (isInBlock docNestedBlocks (offsetAt docNestedBlocks ⟨2, 3⟩) layoutChars)
          (isInBlock docNestedBlocks (offsetAt docNestedBlocks ⟨2, 3⟩) focusRingChars)
          (isInBlock docNestedBlocks (offsetAt docNestedBlocks ⟨2, 3⟩) borderChars)
          (isInBlock docNestedBlocks (offsetAt docNestedBlocks ⟨2, 3⟩) shadowChars)
          (isInBlock docNestedBlocks (offsetAt docNestedBlocks ⟨2, 3⟩) inputChars)
          (isInBlock docNestedBlocks (offsetAt docNestedBlocks ⟨2, 3⟩) bindsChars)
          (isInBlock docNestedBlocks (offsetAt docNestedBlocks ⟨2, 3⟩) windowRuleChars)).enum.map
          propItemOf) :=
  ⟨relevant_properties_priority.1 true true true true true true true,
   relevant_properties_priority.2.2.1 true true false false false false (by decide),
   (relevant_properties_priority.2.2.2.2.2.2.2.1 false false false false false false
     false false).2 ⟨rfl, rfl, rfl, rfl, rfl, rfl, rfl, rfl⟩,
   relevant_properties_priority.2.2.2.2.2.2.2.2 docNestedBlocks ⟨2, 3⟩
     (by decide) (by decide)⟩

/-! ## C9: completion is a deterministic function of the snapshot -/

/-- C9.  The completion computation factors through the context classifier:
for every document snapshot and position, `doComplete` returns exactly the
list synthesized from the derived context flags, which are themselves a pure
function of `(text, position)`.  Hence two invocations with the same
snapshot and position return the same candidate list in the same order —
there is no hidden mutable state. -/
theorem doComplete_deterministic (text : List Char) (pos : Pos) :
    doComplete text pos = synthFromCtx (classifyContext text pos) := by
  unfold doComplete synthFromCtx classifyContext
  cases hm : matchPropAssign (linePrefixAt text pos) with
  | none => simp [hm]
  | some nm => simp [hm]

/-! ## C1: the Block-Containment Oracle matches its specification -/

/-- The greatest `j < n` satisfying `p`, if any. -/
def greatestBelow (p : Nat → Bool) : Nat → Option Nat
  | 0 => none
  | n + 1 => if p n then some n else greatestBelow p n

theorem greatestBelow_succ (p : Nat → Bool) (n : Nat) :
    greatestBelow p (n + 1) = if p n then some n else greatestBelow p n := rfl

theorem greatestBelow_ext {p : Nat → Bool} {a : Nat} :
    ∀ {b : Nat}, a ≤ b → (∀ j, a ≤ j → j < b → p j = false) →
      greatestBelow p b = greatestBelow p a := by
  intro b
  induction b with
  | zero => intro hab _; cases Nat.le_zero.1 hab; rfl
  | succ n ih =>
    intro hab hf
    rcases Nat.lt_or_ge a (n + 1) with h | h
    · have han : a ≤ n := Nat.lt_succ_iff.1 h
      rw [greatestBelow_succ]
      rw [hf n han (Nat.lt_succ_self n)]
      simp only [Bool.false_eq_true, if_false]
      exact ih han (fun j hj hjn => hf j hj (Nat.lt_succ_of_lt hjn))
    · have : a = n + 1 := Nat.le_antisymm hab h
      rw [this]

theorem getLast?_filter_range (p : Nat → Bool) :
    ∀ n, ((List.range n).filter (fun i => p i)).getLast? = greatestBelow p n := by
  intro n
  induction n with
  | zero => rfl
  | succ n ih =>
    rw [List.range_succ, List.filter_append]
    unfold greatestBelow
    cases hp : p n with
    | true =>
      simp only [List.filter_cons, hp, if_true, List.filter_nil]
      rw [List.getLast?_concat]
    | false =>
      simp only [List.filter_cons, hp, Bool.false_eq_true, if_false, List.filter_nil,
        List.append_nil]
      exact ih

theorem wsThenBrace_spec :
    ∀ {l : List Char} {k : Nat}, wsThenBrace l = some k →
      1 ≤ k ∧ k ≤ l.length ∧
        ∀ m, m < k → ∃ c, l.get? m = some c ∧ (isSpaceChar c = true ∨ c = '{') := by
  intro l
  induction l with
  | nil => intro k h; simp [wsThenBrace] at h
  | cons c cs ih =>
    intro k h
    unfold wsThenBrace at h
    split at h
    · next hc =>
      subst hc
      have hk : k = 1 := by simpa using h.symm
      subst hk
      refine ⟨Nat.le_refl 1, by simp, ?_⟩
      intro m hm
      have : m = 0 := by omega
      subst this
      exact ⟨'{', rfl, Or.inr rfl⟩
    · split at h
      · next hsp =>
        cases hrec : wsThenBrace cs with
        | none => rw [hrec] at h; simp at h
        | some k' =>
          rw [hrec] at h
          have hk : k = k' + 1 := by simpa using h.symm
          subst hk
          obtain ⟨h1, h2, h3⟩ := ih hrec
          refine ⟨by omega, by simpa using Nat.succ_le_succ h2, ?_⟩
          intro m hm
          cases m with
          | zero => exact ⟨c, rfl, Or.inl hsp⟩
          | succ m' =>
            obtain ⟨d, hd, hor⟩ := h3 m' (by omega)
            exact ⟨d, by simpa using hd, hor⟩
      · simp at h

theorem matchPatAt_parts {cs name : List Char} {i len : Nat}
    (h : matchPatAt cs name i = some len) :
    boundaryAt cs i = true ∧ name.isPrefixOf (cs.drop i) = true ∧
      ∃ k, wsThenBrace (cs.drop (i + name.length)) = some k ∧ len = name.length + k := by
  unfold matchPatAt at h
  split at h
  · next hcond =>
    rw [Bool.and_eq_true] at hcond
    cases hw : wsThenBrace (cs.drop (i + name.length)) with
    | none => rw [hw] at h; simp at h
    | some k =>
      rw [hw] at h
      exact ⟨hcond.1, hcond.2, k, rfl, by simpa using h.symm⟩
  · simp at h

theorem matchPatAt_bounds {cs name : List Char} {i len : Nat}
    (hne : name ≠ []) (h : matchPatAt cs name i = some len) :
    1 ≤ len ∧ i + len ≤ cs.length := by
  obtain ⟨-, hpre, k, hw, hlen⟩ := matchPatAt_parts h
  obtain ⟨hk1, hk2, -⟩ := wsThenBrace_spec hw
  have hplen : name.length ≤ (cs.drop i).length :=
    (List.isPrefixOf_iff_prefix.1 hpre).length_le
  rw [List.length_drop] at hplen
  rw [List.length_drop] at hk2
  subst hlen
  constructor
  · omega
  · have hi : i ≤ cs.length := by
      by_contra hcon
      have : cs.drop i = [] := List.drop_eq_nil_of_le (by omega)
      rw [this] at hpre
      exact hne (by simpa using List.isPrefixOf_iff_prefix.1 hpre)
    omega

theorem prefix_get? {name l : List Char} (hpre : name.isPrefixOf l = true)
    {m : Nat} (hm : m < name.length) : l.get? m = name.get? m := by
  obtain ⟨t, ht⟩ := List.isPrefixOf_iff_prefix.1 hpre
  rw [← ht]
  exact List.get?_append hm

/-- No-overlap: under the hypothesis that the block name has no whitespace
and no open-brace characters, a match of `\b<name>\s*\{` at `i` excludes any
further match starting strictly inside the matched region (the global regex
scan therefore finds every matching position). -/
theorem matchPatAt_no_overlap {cs name : List Char} {i len : Nat}
    (hne : name ≠ [])
    (hchars : ∀ c ∈ name, isSpaceChar c = false ∧ c ≠ '{')
    (h : matchPatAt cs name i = some len) :
    ∀ j, i < j → j < i + len → matchPatAt cs name j = none := by
  intro j hij hjlen
  obtain ⟨-, hpre, k, hw, hlen⟩ := matchPatAt_parts h
  obtain ⟨hk1, hk2, hreg⟩ := wsThenBrace_spec hw
  rw [List.length_drop] at hk2
  cases hmj : matchPatAt cs name j with
  | none => rfl
  | some len' =>
    exfalso
    obtain ⟨-, hprej, -, -, -⟩ := matchPatAt_parts hmj
    have hnlen : 0 < name.length := List.length_pos.2 hne
    -- the first character of a match at `j` is `name.head`, i.e. a
    -- non-space, non-brace character
    obtain ⟨c0, hc0⟩ : ∃ c0, name.get? 0 = some c0 := by
      cases hn : name.get? 0 with
      | none => rw [List.get?_eq_none] at hn; omega
      | some c0 => exact ⟨c0, rfl⟩
    have hc0mem : c0 ∈ name := List.get?_mem hc0
    rcases Nat.lt_or_ge j (i + name.length) with hcase | hcase
    · -- `j` starts inside the name: position `name.length - (j - i)` of the
      -- overlapping match must hold a whitespace or brace character of the
      -- region, yet it is a character of `name`
      set d := j - i with hd
      have hd1 : 1 ≤ d := by omega
      have hdlt : d < name.length := by omega
      set m := name.length - d with hm
      have hm1 : m < name.length := by omega
      obtain ⟨cm, hcm⟩ : ∃ cm, name.get? m = some cm := by
        cases hn : name.get? m with
        | none => rw [List.get?_eq_none] at hn; omega
        | some cm => exact ⟨cm, rfl⟩
      have hcmmem : cm ∈ name := List.get?_mem hcm
      -- via the match at `j`: cs.get? (j + m) = name.get? m
      have h1 : cs.get? (j + m) = some cm := by
        have := prefix_get? hprej hm1
        rw [List.get?_drop] at this
        rw [this, hcm]
      -- via the region of the match at `i`: position j + m = i + name.length
      have hjm : j + m = i + name.length := by omega
      obtain ⟨creg, hcreg, hcor⟩ := hreg 0 (by omega)
      rw [List.get?_drop, Nat.add_zero] at hcreg
      rw [hjm, hcreg] at h1
      have : creg = cm := by simpa using h1
      subst this
      obtain ⟨hsp, hbr⟩ := hchars creg hcmmem
      rcases hcor with h | h
      · rw [hsp] at h; exact absurd h (by simp)
      · exact hbr h
    · -- `j` starts in the whitespace-brace region: its first character is a
      -- whitespace or brace, yet it must equal the head of `name`
      set m := j - (i + name.length) with hm
      have hmk : m < k := by omega
      obtain ⟨creg, hcreg, hcor⟩ := hreg m hmk
      rw [List.get?_drop] at hcreg
      have h1 : cs.get? j = some c0 := by
        have := prefix_get? hprej (by omega : 0 < name.length)
        rw [List.get?_drop, Nat.add_zero] at this
        rw [this, hc0]
      have hjreg : i + name.length + m = j := by omega
      rw [hjreg] at hcreg
      rw [hcreg] at h1
      have : creg = c0 := by simpa using h1
      subst this
      obtain ⟨hsp, hbr⟩ := hchars creg hc0mem
      rcases hcor with h | h
      · rw [hsp] at h; exact absurd h (by simp)
      · exact hbr h

theorem execLastAux_eq_greatestBelow {cs name : List Char}
    (hne : name ≠ [])
    (hchars : ∀ c ∈ name, isSpaceChar c = false ∧ c ≠ '{') :
    ∀ (fuel i : Nat) (acc : Option Nat),
      i ≤ cs.length + 1 →
      cs.length + 2 ≤ fuel + i →
      acc = greatestBelow (fun j => (matchPatAt cs name j).isSome) i →
      execLastAux cs name fuel i acc =
        greatestBelow (fun j => (matchPatAt cs name j).isSome) (cs.length + 1) := by
  intro fuel
  induction fuel with
  | zero => intro i acc hi hfuel hacc; omega
  | succ fuel ih =>
    intro i acc hi hfuel hacc
    unfold execLastAux
    split
    · next hlt =>
      have : i = cs.length + 1 := by omega
      rw [hacc, this]
    · next hge =>
      have hile : i ≤ cs.length := by omega
      cases hm : matchPatAt cs name i with
      | some len =>
        obtain ⟨hlen1, hlen2⟩ := matchPatAt_bounds hne hm
        refine ih (i + len) (some i) (by omega) (by omega) ?_
        have hstep : greatestBelow (fun j => (matchPatAt cs name j).isSome) (i + 1) =
            some i := by
          rw [greatestBelow_succ]
          rw [if_pos (by rw [hm]; rfl)]
        rw [greatestBelow_ext (a := i + 1) (by omega)
          (fun j hj1 hj2 => ?_), hstep]
        have := matchPatAt_no_overlap hne hchars hm j (by omega) hj2
        rw [this]
        rfl
      | none =>
        refine ih (i + 1) acc (by omega) (by omega) ?_
        rw [greatestBelow_succ, if_neg (by rw [hm]; simp), hacc]

theorem execLast_eq_greatestBelow {cs name : List Char}
    (hne : name ≠ [])
    (hchars : ∀ c ∈ name, isSpaceChar c = false ∧ c ≠ '{') :
    execLast cs name =
      greatestBelow (fun j => (matchPatAt cs name j).isSome) (cs.length + 1) := by
  unfold execLast
  exact execLastAux_eq_greatestBelow hne hchars (cs.length + 2) 0 none
    (by omega) (by omega) rfl

def nameBraceX : List Char := ("\x7b x").toList

def docOverlap : List Char := ("a\x7b x\x7b x\x7b\x7d\x7d").toList

/-- Counterexample to C1 as stated, which quantifies over every block name.
For the block name `{ x` and the document `a{ x{ x{}}` at offset 10, the
pattern "word-boundary, blockName, optional whitespace, open-brace" matches
at positions 1 and 4 (both conjuncts below), but the code's global-regex
scan, after matching at 1, resumes past the match end and so skips the
overlapping occurrence at 4: it anchors to position 1, counts 3 `{` against
2 `}`, and returns true — while the claim's "last such occurrence" is
position 4, whose tail has 2 `{` against 2 `}`, giving false. -/
theorem isInBlock_last_occurrence_counterexample :
    (matchPatAt (docOverlap.take 10) nameBraceX 1).isSome = true
    ∧ (matchPatAt (docOverlap.take 10) nameBraceX 4).isSome = true
    ∧ isInBlock docOverlap 10 nameBraceX = true
    ∧ isInsideSpec docOverlap 10 nameBraceX = false :=
  ⟨by decide, by decide, by decide, by decide⟩

/-- C1 (amended).  For every document text, offset, and block name without
whitespace or open-brace characters — a restriction forced by the
counterexample above, and satisfied by all eight block names the service
queries — the code oracle `isInBlock` agrees with the specification oracle
`isInsideSpec`: it returns false when no position of `text[0:offset]`
matches the pattern "word-boundary, blockName, optional whitespace,
open-brace", and otherwise returns true if and only if the open-brace count
strictly exceeds the close-brace count in the substring from the last such
position to the offset. -/
theorem isInBlock_matches_spec (text : List Char) (offset : Nat) (name : List Char)
    (hne : name ≠ [])
    (hchars : ∀ c ∈ name, isSpaceChar c = false ∧ c ≠ '{') :
    isInBlock text offset name = isInsideSpec text offset name := by
  simp only [isInBlock, isInsideSpec]
  rw [execLast_eq_greatestBelow hne hchars]
  rw [show ((List.range ((text.take offset).length + 1)).filter
      (fun i => (matchPatAt (text.take offset) name i).isSome)).getLast? =
      greatestBelow (fun j => (matchPatAt (text.take offset) name j).isSome)
        ((text.take offset).length + 1) from
    getLast?_filter_range _ _]

def docBindsInner : List Char := ("binds \x7b\n  Mod+Q \x7b\n").toList

def docBindsClosed : List Char := ("binds \x7b\n  Mod+Q \x7b\n  \x7d\n\x7d\n").toList

theorem isInBlock_matches_spec_witness :
    bindsChars ≠ [] ∧
    isInBlock docBindsInner 18 bindsChars = isInsideSpec docBindsInner 18 bindsChars ∧
    isInBlock docBindsInner 18 bindsChars = true ∧
    isInBlock docBindsClosed 24 bindsChars = isInsideSpec docBindsClosed 24 bindsChars ∧
    isInBlock docBindsClosed 24 bindsChars = false :=
  ⟨by decide,
   isInBlock_matches_spec docBindsInner 18 bindsChars (by decide) (by decide),
   by decide,
   isInBlock_matches_spec docBindsClosed 24 bindsChars (by decide) (by decide),
   by decide⟩

/-! ## C3: escape validation on well-formed documents -/

theorem hexDigit_ne {c : Char} (h : isHexDigit c = true) : c ≠ '\\' ∧ c ≠ '"' := by
  constructor
  · intro he; subst he; exact absurd h (by decide)
  · intro he; subst he; exact absurd h (by decide)

theorem safeEscChars_chars {e : List Char} (h : safeEscChars e = true) :
    ∀ c ∈ e, c ≠ '\\' ∧ c ≠ '"' := by
  cases e with
  | nil => intro c hc; simp at hc
  | cons d tail =>
    cases tail with
    | nil =>
      intro c hc
      have hcd : c = d := by simpa using hc
      subst hcd
      have hd : c = 'n' ∨ c = 'r' ∨ c = 't' ∨ c = 'b' ∨ c = 'f' := by
        have h' : (decide (c = 'n') || decide (c = 'r') || decide (c = 't') ||
            decide (c = 'b') || decide (c = 'f')) = true := h
        simp [Bool.or_eq_true] at h'
        tauto
      rcases hd with h | h | h | h | h <;> subst h <;> exact ⟨by decide, by decide⟩
    | cons d2 tail2 =>
      intro c hc
      have h' : ((decide (d = 'u') && decide ((d2 :: tail2).length = 4) &&
            (d2 :: tail2).all isHexDigit) ||
          (decide (d = 'U') && decide ((d2 :: tail2).length = 8) &&
            (d2 :: tail2).all isHexDigit)) = true := h
      rw [Bool.or_eq_true] at h'
      rcases List.mem_cons.1 hc with hcd | hcm
      · subst hcd
        rcases h' with h' | h'
        · rw [Bool.and_eq_true, Bool.and_eq_true] at h'
          have : c = 'u' := of_decide_eq_true h'.1.1
          subst this
          exact ⟨by decide, by decide⟩
        · rw [Bool.and_eq_true, Bool.and_eq_true] at h'
          have : c = 'U' := of_decide_eq_true h'.1.1
          subst this
          exact ⟨by decide, by decide⟩
      · have hhex : isHexDigit c = true := by
          rcases h' with h' | h' <;>
          · rw [Bool.and_eq_true] at h'
            exact List.all_eq_true.1 h'.2 c hcm
        exact hexDigit_ne hhex

theorem allowed_of_safeEsc {e : List Char} (rest : List Char)
    (h : safeEscChars e = true) : allowedAfterBackslash (e ++ rest) = true := by
  cases e with
  | nil => simp [safeEscChars] at h
  | cons d tail =>
    cases tail with
    | nil =>
      have hd : d = 'n' ∨ d = 'r' ∨ d = 't' ∨ d = 'b' ∨ d = 'f' := by
        have h' : (decide (d = 'n') || decide (d = 'r') || decide (d = 't') ||
            decide (d = 'b') || decide (d = 'f')) = true := h
        simp [Bool.or_eq_true] at h'
        tauto
      rcases hd with h | h | h | h | h <;> subst h <;> rfl
    | cons d2 tail2 =>
      have h' : ((decide (d = 'u') && decide ((d2 :: tail2).length = 4) &&
            (d2 :: tail2).all isHexDigit) ||
          (decide (d = 'U') && decide ((d2 :: tail2).length = 8) &&
            (d2 :: tail2).all isHexDigit)) = true := h
      rw [Bool.or_eq_true] at h'
      rcases h' with h' | h'
      · rw [Bool.and_eq_true, Bool.and_eq_true] at h'
        obtain ⟨⟨hu, hlen⟩, hhex⟩ := h'
        have hd : d = 'u' := of_decide_eq_true hu
        have hlen' : (d2 :: tail2).length = 4 := of_decide_eq_true hlen
        subst hd
        have htake : ((d2 :: tail2) ++ rest).take 4 = d2 :: tail2 := by
          rw [← hlen']
          exact List.take_left _ _
        show allowedAfterBackslash ('u' :: ((d2 :: tail2) ++ rest)) = true
        simp [allowedAfterBackslash, htake, hhex, hlen']
        have hl3 : tail2.length = 3 := by
          simp at hlen'
          omega
        rw [List.all_cons, Bool.and_eq_true] at hhex
        refine ⟨by omega, hhex.1, ?_⟩
        intro x hx
        rw [← hl3, List.take_left] at hx
        exact List.all_eq_true.1 hhex.2 x hx
      · rw [Bool.and_eq_true, Bool.and_eq_true] at h'
        obtain ⟨⟨hu, hlen⟩, hhex⟩ := h'
        have hd : d = 'U' := of_decide_eq_true hu
        have hlen' : (d2 :: tail2).length = 8 := of_decide_eq_true hlen
        subst hd
        have htake : ((d2 :: tail2) ++ rest).take 8 = d2 :: tail2 := by
          rw [← hlen']
          exact List.take_left _ _
        show allowedAfterBackslash ('U' :: ((d2 :: tail2) ++ rest)) = true
        simp [allowedAfterBackslash, htake, hhex, hlen']
        have hl7 : tail2.length = 7 := by
          simp at hlen'
          omega
        rw [List.all_cons, Bool.and_eq_true] at hhex
        refine ⟨by omega, hhex.1, ?_⟩
        intro x hx
        rw [← hl7, List.take_left] at hx
        exact List.all_eq_true.1 hhex.2 x hx

theorem skip_no_backslash {l m : List Char} (h : ∀ c ∈ l, c ≠ '\\') :
    invalidEscapes (l ++ m) = invalidEscapes m := by
  induction l with
  | nil => rfl
  | cons c l' ih =>
    rw [List.cons_append]
    simp only [invalidEscapes]
    rw [if_neg (h c (List.mem_cons_self c l'))]
    exact ih (fun d hd => h d (List.mem_cons_of_mem c hd))

theorem invalidEscapes_renderBody {ts : List Tok} (h : GoodBody ts = true) :
    invalidEscapes (renderBody ts) = [] := by
  induction ts with
  | nil => rfl
  | cons tok ts' ih =>
    rw [GoodBody, List.all_cons, Bool.and_eq_true] at h
    obtain ⟨htok, hts⟩ := h
    have ih' := ih hts
    cases tok with
    | plainTok c =>
      rw [Tok.good, Bool.and_eq_true] at htok
      have hc : c ≠ '\\' := of_decide_eq_true htok.2
      show invalidEscapes (c :: renderBody ts') = []
      simp only [invalidEscapes]
      rw [if_neg hc]
      exact ih'
    | escTok e =>
      have he : safeEscChars e = true := htok
      show invalidEscapes ('\\' :: (e ++ renderBody ts')) = []
      simp [invalidEscapes, allowed_of_safeEsc _ he,
        skip_no_backslash (fun c hc => (safeEscChars_chars he c hc).1), ih']

theorem GoodBody_no_quote {ts : List Tok} (h : GoodBody ts = true) :
    '"' ∉ renderBody ts := by
  induction ts with
  | nil => simp [renderBody]
  | cons tok ts' ih =>
    rw [GoodBody, List.all_cons, Bool.and_eq_true] at h
    obtain ⟨htok, hts⟩ := h
    have ih' := ih hts
    cases tok with
    | plainTok c =>
      rw [Tok.good, Bool.and_eq_true] at htok
      have hc : c ≠ '"' := of_decide_eq_true htok.1
      intro hmem
      rcases List.mem_cons.1 hmem with h | h
      · exact hc h.symm
      · exact ih' h
    | escTok e =>
      have he : safeEscChars e = true := htok
      intro hmem
      have hmem' : '"' ∈ '\\' :: (e ++ renderBody ts') := hmem
      rcases List.mem_cons.1 hmem' with h | h
      · exact absurd h (by decide)
      · rcases List.mem_append.1 h with h | h
        · exact (safeEscChars_chars he '"' h).2 rfl
        · exact ih' h

theorem splitAtQuote_complete {u : List Char} (v : List Char) (h : '"' ∉ u) :
    splitAtQuote (u ++ '"' :: v) = some (u, v) := by
  induction u with
  | nil => simp [splitAtQuote]
  | cons c u' ih =>
    rw [List.cons_append]
    simp only [splitAtQuote]
    rw [if_neg (by intro hc; subst hc; exact h (List.mem_cons_self _ _))]
    rw [ih (fun hm => h (List.mem_cons_of_mem c hm))]
    rfl

theorem mem_take_runLen : ∀ {l : List Char} {x c : Char},
    c ∈ l.take (runLen x l) → c = x := by
  intro l
  induction l with
  | nil => intro x c hc; simp [runLen] at hc
  | cons d ds ih =>
    intro x c hc
    by_cases hd : d = x
    · subst hd
      rw [runLen, List.takeWhile_cons, if_pos (by simp)] at hc
      rw [List.length_cons, List.take_succ_cons] at hc
      rcases List.mem_cons.1 hc with h | h
      · exact h
      · exact ih h
    · rw [runLen, List.takeWhile_cons, if_neg (by simpa using hd)] at hc
      simp at hc

theorem GoodText_drop : ∀ (k : Nat) (t : List Char), GoodText t →
    (∀ c ∈ t.take k, c ≠ '"') → GoodText (t.drop k) := by
  intro k
  induction k with
  | zero => intro t hg _; simpa using hg
  | succ k ih =>
    intro t hg hk
    cases t with
    | nil => exact GoodText.nil
    | cons c rest =>
      have hc : c ≠ '"' := hk c (by rw [List.take_succ_cons]; exact List.mem_cons_self _ _)
      rw [List.drop_succ_cons]
      cases hg with
      | plain _ _ h1 h2 =>
        refine ih rest h2 (fun d hd => hk d ?_)
        rw [List.take_succ_cons]
        exact List.mem_cons_of_mem _ hd
      | lit ts rest' hb hrest => exact absurd rfl hc

theorem matchStringAt_good {t m0 body rest : List Char} (hg : GoodText t)
    (h : matchStringAt t = some (m0, body, rest)) :
    (∃ ts, GoodBody ts = true ∧ body = renderBody ts) ∧ GoodText rest := by
  simp only [matchStringAt] at h
  split at h
  · simp at h
  · next c l3 hl2 =>
    split at h
    · next hc =>
      subst hc
      split at h
      · simp at h
      · next body' l4 hsq =>
        simp only [Option.some.injEq, Prod.mk.injEq] at h
        obtain ⟨-, hbody, hrest⟩ := h
        -- the suffix starting at the opening quote is good text
        have hg1 : GoodText (t.drop (runLen 'r' t)) :=
          GoodText_drop _ t hg (fun d hd => by
            have := mem_take_runLen hd
            subst this
            decide)
        have hg2 : GoodText ((t.drop (runLen 'r' t)).drop
            (runLen '#' (t.drop (runLen 'r' t)))) :=
          GoodText_drop _ _ hg1 (fun d hd => by
            have := mem_take_runLen hd
            subst this
            decide)
        rw [hl2] at hg2
        -- invert: the quote must open a literal
        cases hg2 with
        | plain _ _ h1 _ => exact absurd rfl h1
        | lit ts rest' hb hrest' =>
          have hsq' : splitAtQuote (renderBody ts ++ '"' :: rest') =
              some (renderBody ts, rest') :=
            splitAtQuote_complete rest' (GoodBody_no_quote hb)
          rw [hsq'] at hsq
          simp only [Option.some.injEq, Prod.mk.injEq] at hsq
          obtain ⟨hb', hl4⟩ := hsq
          constructor
          · exact ⟨ts, hb, by rw [← hbody, ← hb']⟩
          · rw [← hrest, ← hl4]
            exact GoodText_drop _ _ hrest' (fun d hd => by
              have := mem_take_runLen hd
              subst this
              decide)
    · simp at h

theorem findStrings_good : ∀ (fuel : Nat) (t : List Char), GoodText t →
    ∀ m ∈ findStrings fuel t, ∃ ts, GoodBody ts = true ∧ m.2 = renderBody ts := by
  intro fuel
  induction fuel with
  | zero => intro t _ m hm; simp [findStrings] at hm
  | succ fuel ih =>
    intro t hg m hm
    match t, hg, hm with
    | [], _, hm => simp [findStrings] at hm
    | c :: cs, hg, hm =>
      unfold findStrings at hm
      split at hm
      · next m0 body rest hms =>
        rcases List.mem_cons.1 hm with h | h
        · obtain ⟨⟨ts, hts, hbody⟩, -⟩ := matchStringAt_good hg hms
          exact ⟨ts, hts, by rw [h]; exact hbody⟩
        · exact ih rest (matchStringAt_good hg hms).2 m h
      · next hms =>
        cases hg with
        | plain _ _ h1 h2 => exact ih cs h2 m hm
        | lit ts rest' hb hrest =>
          exfalso
          have hsq : splitAtQuote (renderBody ts ++ '"' :: rest') =
              some (renderBody ts, rest') :=
            splitAtQuote_complete rest' (GoodBody_no_quote hb)
          have h1 : runLen 'r' ('"' :: (renderBody ts ++ '"' :: rest')) = 0 := by
            simp [runLen, List.takeWhile_cons]
          have h2 : runLen '#' ('"' :: (renderBody ts ++ '"' :: rest')) = 0 := by
            simp [runLen, List.takeWhile_cons]
          simp [matchStringAt, h1, h2, hsq] at hms

theorem good_text_no_findings {t : List Char} (hg : GoodText t) :
    findInvalidEscapes t = [] := by
  unfold findInvalidEscapes
  rw [List.filterMap_eq_nil]
  intro m hm
  obtain ⟨ts, hts, hbody⟩ := findStrings_good _ t hg m hm
  by_cases hr : m.1.head? = some 'r'
  · simp [hr]
  · have hinv : invalidEscapes m.2 = [] := by
      rw [hbody]
      exact invalidEscapes_renderBody hts
    simp [hr, hinv]

theorem escapeDiagnostics_nil {t : List Char} (h : findInvalidEscapes t = []) :
    escapeDiagnostics t = [] := by
  unfold escapeDiagnostics
  rw [h]
  rfl

theorem countP_escape_zero {t : List Char} (h : escapeDiagnostics t = []) :
    (doValidation t).countP isEscapeDiag = 0 := by
  simp only [doValidation]
  rw [List.countP_append, countP_flatMap]
  have hz : ∀ i ∈ List.range (splitLines t).length,
      (perLineDiagnostics t i ((splitLines t).getD i [])).countP isEscapeDiag = 0 := by
    intro i _
    unfold perLineDiagnostics
    split
    · rfl
    · rw [h, List.append_nil, List.countP_eq_zero]
      intro d hd
      rw [mem_unclosedDiagsFor hd]
      simp [isEscapeDiag]
  rw [sum_map_eq_zero (fun i hi => hz i hi), Nat.zero_add, List.countP_eq_zero]
  intro d hd
  simp only [braceDiagnostics] at hd
  split at hd
  · rw [List.mem_singleton.1 hd]
    simp [isEscapeDiag]
  · simp at hd

def docSlashQ : List Char := ("\"\\q\"").toList

/-- C3 (amended).  For every document built from plain non-quote characters
and complete non-raw string literals whose escapes are among
`\n \r \t \b \f \u{4-hex} \U{8-hex}` — the allow-list minus the escaped
quote and escaped backslash, which the scanner does not handle as the
original claim assumes — validation produces zero escape diagnostics; and
for the single-line document `"\q"` with one disallowed escape, validation
produces exactly one escape diagnostic, whose range covers exactly the one
backslash character of the escape (not the two characters of `\q`). -/
theorem escape_validation_good_docs (t : List Char) (hg : GoodText t) :
    findInvalidEscapes t = []
    ∧ (doValidation t).countP isEscapeDiag = 0
    ∧ doValidation docSlashQ =
        [⟨.error, ⟨⟨0, 1⟩, ⟨0, 2⟩⟩, .invalidEscape ['\\']⟩] :=
  ⟨good_text_no_findings hg,
   countP_escape_zero (escapeDiagnostics_nil (good_text_no_findings hg)),
   by decide⟩

/-- Counterexample to C3 as stated: introducing the disallowed escape `\q`
into the (otherwise escape-free) document gives exactly one escape
diagnostic, but its range spans one character — the backslash at characters
1 to 2 — not the two characters `\q` (which would end at character 3): the
invalid-escape regex match consists of the backslash alone, because the
lookahead consumes nothing. -/
theorem escape_range_counterexample :
    doValidation docSlashQ =
      [⟨.error, ⟨⟨0, 1⟩, ⟨0, 2⟩⟩, .invalidEscape ['\\']⟩]
    ∧ (⟨0, 2⟩ : Pos) ≠ ⟨0, 3⟩ :=
  ⟨by decide, by decide⟩

def docGoodEsc : List Char := ['a', '"', '\\', 'n', '"']

theorem escape_validation_good_docs_witness :
    findInvalidEscapes docGoodEsc = []
    ∧ (doValidation docGoodEsc).countP isEscapeDiag = 0 :=
  have hg : GoodText docGoodEsc :=
    GoodText.plain 'a' _ (by decide)
      (GoodText.lit [Tok.escTok ['n']] [] (by decide) GoodText.nil)
  ⟨(escape_validation_good_docs docGoodEsc hg).1,
   (escape_validation_good_docs docGoodEsc hg).2.1⟩

end NiriKdl
